import Mathlib

/-!
A verification development for the Betman purchase-push pipeline
(a Chrome content/background script pair).  The JavaScript source is
shallowly embedded: pure string/number routines become Lean functions on
`String`/`ℚ`/`ℕ`, session/durable storage becomes an explicit `Store`
record threaded through the operations, and the asynchronous capture /
delivery primitives become oracle parameters.  JS numbers are modelled as
`ℚ` (all arithmetic in the embedded fragments is exact: additions,
comparisons, `Math.floor`/`Math.ceil`), and JS object maps as association
lists with first-key lookup.
-/

namespace Betman

/-! ### JS string primitives

`normalizeText(input)` in the source is
`String(input || "").replace(/\s+/g, " ").trim()`.  We model the `\s`
class by its members that can actually occur in this pipeline's data
(ASCII whitespace, NBSP and the BOM). -/

/-- The JS `\s` character class (restricted to the code points listed). -/
def isJsWs (c : Char) : Bool :=
  c = ' ' || c = '\t' || c = '\n' || c = '\r' ||
  c = '\u000B' || c = '\u000C' || c = ' ' || c = '﻿'

/-- `replace(/\s+/g, " ")`: collapse every whitespace run to one space.
`prevWs` records whether the previous input character was whitespace
(in which case the current run has already emitted its space). -/
def collapseWsAux : Bool → List Char → List Char
  | _, [] => []
  | prevWs, c :: rest =>
    if isJsWs c then
      if prevWs then collapseWsAux true rest
      else ' ' :: collapseWsAux true rest
    else c :: collapseWsAux false rest

/-- `String.prototype.trim()`: strip leading and trailing whitespace. -/
def jsTrim (l : List Char) : List Char :=
  ((l.dropWhile isJsWs).reverse.dropWhile isJsWs).reverse

/-- `normalizeText` from the content script. -/
def normalizeText (s : String) : String :=
  String.mk (jsTrim (collapseWsAux false s.data))

/-! ### The slip-identifier pattern

`SLIP_ID_PATTERN = /[A-Z0-9]{4}(?:-[A-Z0-9]{4}){3}/g` and
`extractSlipId(text)` returns the first (leftmost) match or `""`. -/

/-- `[A-Z0-9]`. -/
def isSlipChar (c : Char) : Bool :=
  ('A' ≤ c && c ≤ 'Z') || ('0' ≤ c && c ≤ '9')

/-- Match exactly `n` slip characters, returning them and the rest. -/
def matchCount : ℕ → List Char → Option (List Char × List Char)
  | 0, cs => some ([], cs)
  | _ + 1, [] => none
  | n + 1, c :: cs =>
    if isSlipChar c then
      (matchCount n cs).map (fun gr => (c :: gr.1, gr.2))
    else none

/-- Match a literal `-`. -/
def matchDash : List Char → Option (List Char)
  | '-' :: cs => some cs
  | _ => none

/-- Match the whole pattern `[A-Z0-9]{4}(?:-[A-Z0-9]{4}){3}` at the head
of the character list, returning the matched characters. -/
def matchSlip (cs : List Char) : Option (List Char) :=
  (matchCount 4 cs).bind fun p1 =>
  (matchDash p1.2).bind fun r1 =>
  (matchCount 4 r1).bind fun p2 =>
  (matchDash p2.2).bind fun r2 =>
  (matchCount 4 r2).bind fun p3 =>
  (matchDash p3.2).bind fun r3 =>
  (matchCount 4 r3).map fun p4 =>
  p1.1 ++ '-' :: p2.1 ++ '-' :: p3.1 ++ '-' :: p4.1

/-- Leftmost match of the slip pattern: try each start position from the
left, as the regex engine does. -/
def firstSlipFrom : List Char → Option (List Char)
  | [] => none
  | c :: rest =>
    match matchSlip (c :: rest) with
    | some m => some m
    | none => firstSlipFrom rest

/-- `extractSlipId` from the content script: first pattern match or `""`. -/
def extractSlipId (s : String) : String :=
  match firstSlipFrom s.data with
  | some m => String.mk m
  | none => ""

/-! ### Association lists (JS object maps)

JS plain objects used as maps (`attemptsBySlip`, the sent map) are
modelled as association lists looked up at the first matching key. -/

/-- `m[k]`, as an option. -/
def aListFind (m : List (String × ℚ)) (k : String) : Option ℚ :=
  (m.find? (fun e => e.1 = k)).map (·.2)

/-- `Number(m[k] || 0)`: lookup with default `0` (`0` is falsy, so a
stored `0` and an absent key both give `0`). -/
def aListGetD (m : List (String × ℚ)) (k : String) : ℚ :=
  (aListFind m k).getD 0

/-- `m[k] = v`: update the first binding, or append a new one. -/
def aListSet (m : List (String × ℚ)) (k : String) (v : ℚ) : List (String × ℚ) :=
  if (m.find? (fun e => e.1 = k)).isSome then
    m.map (fun e => if e.1 = k then (k, v) else e)
  else m ++ [(k, v)]

/-- `delete m[k]`. -/
def aListErase (m : List (String × ℚ)) (k : String) : List (String × ℚ) :=
  m.filter (fun e => ¬ e.1 = k)

/-! ### PendingQueueStore: normalization -/

/-- One id of `normalizeSlipIdList`'s loop:
`const text = normalizeText(raw || ""); const slipId = extractSlipId(text) || text;` -/
def slipOf (raw : String) : String :=
  if extractSlipId (normalizeText raw) = "" then normalizeText raw
  else extractSlipId (normalizeText raw)

/-- The loop of `normalizeSlipIdList`: `seen`/`next` are one list here
(the JS `Set` mirrors the collected list's membership). -/
def normalizeSlipIdGo : List String → List String → List String
  | [], acc => acc
  | raw :: rest, acc =>
    let slipId := slipOf raw
    if slipId = "" ∨ slipId ∈ acc then normalizeSlipIdGo rest acc
    else normalizeSlipIdGo rest (acc ++ [slipId])

/-- `normalizeSlipIdList` from the content script. -/
def normalizeSlipIdList (input : List String) : List String :=
  normalizeSlipIdGo input []

/-- `Array.prototype.join("|")`. -/
def joinBar : List String → String
  | [] => ""
  | [x] => x
  | x :: xs => x ++ "|" ++ joinBar xs

/-- `buildPendingQueueFingerprint(slipIds)`. -/
def buildPendingQueueFingerprint (slipIds : List String) : String :=
  joinBar (normalizeSlipIdList slipIds)

/-- The pending-queue record `{ slipIds, createdAt, reason, attemptsBySlip,
fingerprint }`.  Raw (just-parsed JSON) and normalized queues share this
shape, exactly as in JS. -/
structure QueuePayload where
  slipIds : List String
  createdAt : ℚ
  reason : String
  attemptsBySlip : List (String × ℚ)
  fingerprint : String
deriving DecidableEq, Repr

/-- One attempt counter of `normalizePendingQueuePayload`:
`Number.isFinite(attemptRaw) && attemptRaw >= 0 ? Math.floor(attemptRaw) : 0`
(`ℚ` is always finite). -/
def clampAttempt (a : ℚ) : ℚ :=
  if 0 ≤ a then (⌊a⌋ : ℚ) else 0

/-- `normalizePendingQueuePayload(payload)`; `now` stands for the
`Date.now()` fallback used when `createdAt` is missing or non-positive. -/
def normalizePendingQueuePayload (payload : QueuePayload) (now : ℚ) :
    Option QueuePayload :=
  let slipIds := normalizeSlipIdList payload.slipIds
  if slipIds = [] then none
  else
    let createdAt := if 0 < payload.createdAt then payload.createdAt else now
    let reason := normalizeText payload.reason
    let attemptsBySlip :=
      slipIds.map (fun s => (s, clampAttempt (aListGetD payload.attemptsBySlip s)))
    let fingerprint :=
      if normalizeText payload.fingerprint = "" then
        buildPendingQueueFingerprint slipIds
      else normalizeText payload.fingerprint
    some { slipIds, createdAt, reason, attemptsBySlip, fingerprint }

/-! ### Storage state

`sessionStorage` (pending queue + its legacy predecessor) and
`chrome.storage.local` (sent map, baseline cursor) as one record. -/

/-- The legacy single-item record `{ slipId, createdAt, attempts, reason }`. -/
structure LegacyPayload where
  slipId : String
  createdAt : ℚ
  attempts : ℚ
  reason : String
deriving DecidableEq, Repr

/-- All persisted state touched by the embedded operations. -/
structure Store where
  pendingCaptureQueue : Option QueuePayload
  pendingCapture : Option LegacyPayload
  sentMap : List (String × ℚ)
  lastSeenHeadSlipId : String
deriving DecidableEq, Repr

/-- `PENDING_CAPTURE_TTL_MS`. -/
def PENDING_CAPTURE_TTL_MS : ℚ := 90 * 1000

/-- `MAX_PENDING_RETRIES`. -/
def MAX_PENDING_RETRIES : ℚ := 3

/-- `loadPendingCapture()`: read and normalize the legacy record. -/
def loadPendingCapture (σ : Store) (now : ℚ) : Option LegacyPayload :=
  match σ.pendingCapture with
  | none => none
  | some parsed =>
    let slipId := normalizeText parsed.slipId
    if slipId = "" then none
    else some
      { slipId
        createdAt := if 0 < parsed.createdAt then parsed.createdAt else now
        attempts := if 0 ≤ parsed.attempts then parsed.attempts else 0
        reason := normalizeText parsed.reason }

/-- `clearPendingCapture()`. -/
def clearPendingCapture (σ : Store) : Store :=
  { σ with pendingCapture := none }

/-- `isPendingCaptureFresh(payload)` (for both queue and legacy records:
only `createdAt` is read). -/
def isPendingCaptureFresh (createdAt now : ℚ) : Bool :=
  createdAt ≠ 0 && now - createdAt ≤ PENDING_CAPTURE_TTL_MS

/-- `savePendingCaptureQueue(payload)`: renormalize, then persist (or
remove the key when normalization fails). -/
def savePendingCaptureQueue (payload : QueuePayload) (σ : Store) (now : ℚ) : Store :=
  match normalizePendingQueuePayload payload now with
  | none => { σ with pendingCaptureQueue := none }
  | some q => { σ with pendingCaptureQueue := some q }

/-- `clearPendingCaptureQueue()`: removes both the queue and legacy keys. -/
def clearPendingCaptureQueue (σ : Store) : Store :=
  { σ with pendingCaptureQueue := none, pendingCapture := none }

/-- The legacy-migration tail of `loadPendingCaptureQueue()`: load the
legacy record, drop it when stale, otherwise wrap it as a one-element
queue, persist that and delete the legacy key. -/
def loadLegacyBranch (σ : Store) (now : ℚ) : Option QueuePayload × Store :=
  match loadPendingCapture σ now with
  | none => (none, σ)
  | some legacy =>
    if ¬ isPendingCaptureFresh legacy.createdAt now then
      (none, clearPendingCapture σ)
    else
      let migrated := normalizePendingQueuePayload
        { slipIds := [legacy.slipId]
          createdAt := legacy.createdAt
          reason := if legacy.reason = "" then "legacy_pending_capture" else legacy.reason
          attemptsBySlip := [(legacy.slipId, legacy.attempts)]
          fingerprint := legacy.slipId } now
      match migrated with
      | some q => (some q, clearPendingCapture (savePendingCaptureQueue q σ now))
      | none => (none, clearPendingCapture σ)

/-- `loadPendingCaptureQueue()`: read the queue, else migrate a fresh
legacy record.  Returns the loaded queue and the possibly-updated store. -/
def loadPendingCaptureQueue (σ : Store) (now : ℚ) :
    Option QueuePayload × Store :=
  match σ.pendingCaptureQueue with
  | some raw =>
    match normalizePendingQueuePayload raw now with
    | some q => (some q, σ)
    | none => loadLegacyBranch σ now
  | none => loadLegacyBranch σ now

/-- `getFreshPendingCaptureQueue()`. -/
def getFreshPendingCaptureQueue (σ : Store) (now : ℚ) :
    Option QueuePayload × Store :=
  match loadPendingCaptureQueue σ now with
  | (none, σ') => (none, σ')
  | (some q, σ') =>
    if ¬ isPendingCaptureFresh q.createdAt now then (none, clearPendingCaptureQueue σ')
    else (some q, σ')

/-- One step of the merge loop of `enqueuePendingCaptureQueue`: skip ids
already present, else append and normalize the attempt counter
(`attemptsBySlip[slipId] = Number(attemptsBySlip[slipId] || 0)`). -/
def enqueueMergeStep (acc : List String × List (String × ℚ)) (slipId : String) :
    List String × List (String × ℚ) :=
  if slipId ∈ acc.1 then acc
  else (acc.1 ++ [slipId], aListSet acc.2 slipId (aListGetD acc.2 slipId))

/-- `enqueuePendingCaptureQueue({ slipIds, reason, reset })`.  Returns the
queue that was persisted (or `none`) and the updated store. -/
def enqueuePendingCaptureQueue (slipIds : List String) (reason : String)
    (reset : Bool) (σ : Store) (now : ℚ) : Option QueuePayload × Store :=
  let incomingSlipIds := normalizeSlipIdList slipIds
  if incomingSlipIds = [] then (none, σ)
  else
    let (merged0, attempts0, σ1) :=
      if reset then ([], [], σ)
      else
        match getFreshPendingCaptureQueue σ now with
        | (some currentQueue, σ') => (currentQueue.slipIds, currentQueue.attemptsBySlip, σ')
        | (none, σ') => ([], [], σ')
    let (mergedSlipIds, attemptsBySlip) :=
      incomingSlipIds.foldl enqueueMergeStep (merged0, attempts0)
    let queue := normalizePendingQueuePayload
      { slipIds := mergedSlipIds
        createdAt := now
        reason := normalizeText reason
        attemptsBySlip
        fingerprint := buildPendingQueueFingerprint mergedSlipIds } now
    match queue with
    | none => (none, σ1)
    | some q => (some q, savePendingCaptureQueue q σ1 now)

/-! ### SentMap: the TTL-pruned dedupe ledger -/

/-- `SENT_TTL_MS = 24 * 60 * 60 * 1000`. -/
def SENT_TTL_MS : ℚ := 24 * 60 * 60 * 1000

/-- `pruneSentMap(map, now)`: keep entries whose timestamp is within the
TTL (the JS `typeof timestamp === "number"` guard always holds here, the
model giving every entry a numeric timestamp). -/
def pruneSentMap (m : List (String × ℚ)) (now : ℚ) : List (String × ℚ) :=
  m.filter (fun e => now - e.2 ≤ SENT_TTL_MS)

/-- `isDuplicate(key)`: prune, persist the pruned map, and report
`Boolean(cleaned[key])` — note a stored timestamp of `0` is falsy. -/
def isDuplicate (key : String) (σ : Store) (now : ℚ) : Bool × Store :=
  let cleaned := pruneSentMap σ.sentMap now
  (match aListFind cleaned key with
   | some t => t ≠ 0
   | none => false,
   { σ with sentMap := cleaned })

/-- `markSent(key)`: prune, insert `key → Date.now()`, persist. -/
def markSent (key : String) (σ : Store) (now : ℚ) : Store :=
  let cleaned := aListSet (pruneSentMap σ.sentMap now) key now
  { σ with sentMap := cleaned }

/-! ### TiledCapture: the compression ladder -/

/-- `MAX_UPLOAD_BYTES`. -/
def MAX_UPLOAD_BYTES : ℕ := 7500000

/-- `PRIMARY_MAX_WIDTH`. -/
def PRIMARY_MAX_WIDTH : ℕ := 1600

/-- `FALLBACK_MAX_WIDTH`. -/
def FALLBACK_MAX_WIDTH : ℕ := 1200

/-- A canvas, by its pixel dimensions (the only attributes the embedded
ladder inspects). -/
structure Canvas where
  width : ℕ
  height : ℕ
deriving DecidableEq, Repr

/-- `resizeCanvas(sourceCanvas, maxWidth)` (the drawing context is assumed
available; its `null` branch only occurs on environment failure). -/
def resizeCanvas (c : Canvas) (maxWidth : ℕ) : Canvas :=
  if c.width ≤ maxWidth then c
  else
    let ratio : ℚ := (maxWidth : ℚ) / (c.width : ℚ)
    { width := (max 1 ⌊(c.width : ℚ) * ratio⌋).toNat
      height := (max 1 ⌊(c.height : ℚ) * ratio⌋).toNat }

/-- A JPEG encode oracle: `canvas.toBlob(·, "image/jpeg", quality)`; the
result is the blob's byte size, `none` when encoding yields no blob. -/
def BlobOracle : Type := Canvas → ℚ → Option ℕ

/-- One quality loop of `canvasToCompressedJpegBlob`, instrumented with
the list of blob sizes it attempted: `Sum.inl blob` is the early return
of a within-budget candidate, `Sum.inr best` falls off the loop carrying
`bestBlob` (which the source overwrites with every non-null blob). -/
def tryQualityLadder (toBlob : BlobOracle) (c : Canvas) :
    List ℚ → Option ℕ → List ℕ × (ℕ ⊕ Option ℕ)
  | [], best => ([], Sum.inr best)
  | q :: rest, best =>
    match toBlob c q with
    | none => tryQualityLadder toBlob c rest best
    | some blob =>
      if blob ≤ MAX_UPLOAD_BYTES then ([blob], Sum.inl blob)
      else
        let r := tryQualityLadder toBlob c rest (some blob)
        (blob :: r.1, r.2)

/-- `canvasToCompressedJpegBlob(canvas)` with its trace: primary ladder at
widths ≤ 1600 and qualities `[0.85, 0.72, 0.6]`, then the fallback ladder
at widths ≤ 1200 and qualities `[0.68, 0.56]`. -/
def canvasLadder (toBlob : BlobOracle) (canvas : Canvas) : List ℕ × Option ℕ :=
  match tryQualityLadder toBlob (resizeCanvas canvas PRIMARY_MAX_WIDTH)
      [0.85, 0.72, 0.6] none with
  | (t1, Sum.inl blob) => (t1, some blob)
  | (t1, Sum.inr best1) =>
    match tryQualityLadder toBlob
        (resizeCanvas (resizeCanvas canvas PRIMARY_MAX_WIDTH) FALLBACK_MAX_WIDTH)
        [0.68, 0.56] best1 with
    | (t2, Sum.inl blob) => (t1 ++ t2, some blob)
    | (t2, Sum.inr best2) => (t1 ++ t2, best2)

/-- The returned blob of `canvasToCompressedJpegBlob`. -/
def canvasToCompressedJpegBlob (toBlob : BlobOracle) (canvas : Canvas) : Option ℕ :=
  (canvasLadder toBlob canvas).2

/-- The blob sizes produced by the tried width/quality combinations, in
order of attempt. -/
def ladderAttempts (toBlob : BlobOracle) (canvas : Canvas) : List ℕ :=
  (canvasLadder toBlob canvas).1

/-! ### DeliveryClient: retry delays (background script) -/

/-- `DEFAULT_RETRY_MS`. -/
def DEFAULT_RETRY_MS : ℚ := 700

/-- The `retry-after` header branch of `parseRetryAfterMs`: a finite
non-negative numeric header value (`none` models an absent or
non-numeric header). -/
def headerRetryMs (headerRetryAfter : Option ℚ) : ℚ :=
  match headerRetryAfter with
  | some value =>
    if 0 ≤ value then (if value > 1000 then value else (⌈value * 1000⌉ : ℚ))
    else DEFAULT_RETRY_MS
  | none => DEFAULT_RETRY_MS

/-- `parseRetryAfterMs(status, responseText, headers)`.
`bodyRetryAfter` is the parsed `retry_after` number of the response body
(`none` when the body is empty, unparsable, or carries no number — all of
which fall through to the header branch, as in the source). -/
def parseRetryAfterMs (status : ℕ) (bodyRetryAfter headerRetryAfter : Option ℚ) : ℚ :=
  if status = 429 then
    match bodyRetryAfter with
    | some ra => if ra > 1000 then ra else (⌈ra * 1000⌉ : ℚ)
    | none => headerRetryMs headerRetryAfter
  else headerRetryMs headerRetryAfter

/-- The sleep before the next attempt after a retriable HTTP status
(`sendWebhookImage`): `Math.max(400, retryMs)`. -/
def httpRetrySleepMs (status : ℕ) (bodyRetryAfter headerRetryAfter : Option ℚ) : ℚ :=
  max 400 (parseRetryAfterMs status bodyRetryAfter headerRetryAfter)

/-- The sleep before the next attempt after a thrown fetch error
(`sendWebhookImage`): `500 * 2 ** (attempt - 1)`. -/
def errorBackoffMs (attempt : ℕ) : ℚ :=
  500 * 2 ^ (attempt - 1)

/-! ### TiledCapture: `captureElementToCanvas`

The DOM/scroll environment is made explicit: the viewport, a static
element given by its absolute page rectangle (so that
`getBoundingClientRect()` at scroll `(x, y)` returns the rectangle
shifted by `(-x, -y)`), and a shot oracle saying whether the `k`-th
privileged viewport capture (with its decode) succeeds.  Scroll positions
are exact (`scrollTo` clamping is not modelled; the restore target is an
actually-held position). -/

/-- Viewport parameters read by the capture. -/
structure Viewport where
  innerWidth : ℚ
  innerHeight : ℚ
  devicePixelRatio : ℚ
deriving DecidableEq, Repr

/-- An element's absolute page rectangle. -/
structure ElemRect where
  left : ℚ
  top : ℚ
  width : ℚ
  height : ℚ
deriving DecidableEq, Repr

/-- `Math.max(1, Math.floor(q))` as a natural number. -/
def jsFloorMax1 (q : ℚ) : ℕ := (max 1 ⌊q⌋).toNat

/-- The body of the tiling `for` loop, iterated over the strip offsets.
State: the `visited` signature set, the shot index, and the current
scroll position.  Returns `none` on a thrown capture failure, else the
final `visited` set, with the in-loop scroll position in either case. -/
def capLoop (vp : Viewport) (elem : ElemRect) (shots : ℕ → Bool)
    (dpr absTop absLeft : ℚ) (outHeight : ℕ) :
    List ℕ → List (ℤ × ℤ) → ℕ → (ℚ × ℚ) →
    (Option (List (ℤ × ℤ))) × (ℚ × ℚ)
  | [], visited, _, scroll => (some visited, scroll)
  | _offset :: offsets, visited, shotIdx, _scroll =>
    let targetY : ℚ := max 0 ⌊absTop + (_offset : ℚ) - 80⌋
    let targetX : ℚ := max 0 ⌊absLeft - 12⌋
    let scroll := (targetX, targetY)
    let rectLeft := elem.left - scroll.1
    let rectTop := elem.top - scroll.2
    let visibleLeft := max 0 rectLeft
    let visibleTop := max 0 rectTop
    let visibleRight := min vp.innerWidth (rectLeft + elem.width)
    let visibleBottom := min vp.innerHeight (rectTop + elem.height)
    if visibleRight ≤ visibleLeft ∨ visibleBottom ≤ visibleTop then
      capLoop vp elem shots dpr absTop absLeft outHeight offsets visited shotIdx scroll
    else
      let visibleAbsLeft := scroll.1 + visibleLeft
      let visibleAbsTop := scroll.2 + visibleTop
      let signature := (round visibleAbsLeft, round visibleAbsTop)
      if signature ∈ visited then
        capLoop vp elem shots dpr absTop absLeft outHeight offsets visited shotIdx scroll
      else
        let visited := signature :: visited
        if ¬ shots shotIdx then (none, scroll)
        else
          let sh := jsFloorMax1 ((visibleBottom - visibleTop) * dpr)
          let dy := (max 0 ⌊(visibleAbsTop - absTop) * dpr⌋).toNat
          if (outHeight : ℤ) - ⌈2 * dpr⌉ ≤ (dy : ℤ) + (sh : ℤ) then
            (some visited, scroll)
          else
            capLoop vp elem shots dpr absTop absLeft outHeight offsets visited
              (shotIdx + 1) scroll

/-- Exit value of `captureElementToCanvas`: a canvas (its dimensions), or
a thrown classified error code. -/
def CaptureExit : Type := Except String (ℕ × ℕ)

/-- `captureElementToCanvas(element)`, returning the exit value and the
window scroll position on exit.  `ctxOk` is the `getContext("2d")`
success (its failure throws before the `try`), `s0` the entry scroll. -/
def captureElementToCanvas (vp : Viewport) (elem : ElemRect) (shots : ℕ → Bool)
    (ctxOk : Bool) (s0 : ℚ × ℚ) : CaptureExit × (ℚ × ℚ) :=
  let dpr := max 1 vp.devicePixelRatio
  let originalX := s0.1
  let originalY := s0.2
  let rectTop := elem.top - s0.2
  let rectLeft := elem.left - s0.1
  let absTop := s0.2 + rectTop
  let absLeft := s0.1 + rectLeft
  let totalWidth := jsFloorMax1 elem.width
  let totalHeight := jsFloorMax1 elem.height
  let outWidth := jsFloorMax1 ((totalWidth : ℚ) * dpr)
  let outHeight := jsFloorMax1 ((totalHeight : ℚ) * dpr)
  if ¬ ctxOk then (Except.error "paperArea_capture_failed", s0)
  else
    let step := (max 240 ⌊vp.innerHeight * (72 / 100 : ℚ)⌋).toNat
    let offsets := (List.range ((totalHeight + step - 1) / step)).map (· * step)
    let (body, _loopScroll) :=
      capLoop vp elem shots dpr absTop absLeft outHeight offsets [] 0 s0
    -- the `finally` block restores the original scroll on every path,
    -- so the exit scroll is `(originalX, originalY)` for all outcomes
    (match body with
     | none => Except.error "screenshot_capture_failed"
     | some visited =>
       if visited = [] then Except.error "screenshot_capture_failed"
       else Except.ok (outWidth, outHeight),
     (originalX, originalY))

/-! ### CaptureResumer: the draining loop of `resumePendingCapture`

`captureHistorySlipAndSend` is an oracle indexed by the step number: it
either resolves (`success`, carrying the `slipId` of its result, possibly
`""`), resolves non-ok (which the loop turns into a thrown
`webhook_send_failed`), or throws a classified error code.  `Date.now()`
is modelled as the constant `now` for the duration of one pass, and the
entry guards (history page, webhook validity, reentrancy flags) are the
environmental preconditions of the loop. -/

/-- Outcome of one `captureHistorySlipAndSend` call. -/
inductive CaptureOutcome where
  | success (slipId : String)
  | notOk
  | thrown (code : String)
deriving DecidableEq, Repr

/-- `RETRIABLE_PENDING_QUEUE_CODES` membership:
`isRetriablePendingQueueCode(code)`. -/
def isRetriablePendingQueueCode (code : String) : Bool :=
  normalizeText code ∈
    ["row_not_found", "paperArea_not_ready", "history_poll_failed",
     "openGamePaper_failed"]

/-- `getErrorCode(error)` for errors built by `createError(code)`. -/
def getErrorCode (code : String) : String := normalizeText code

/-- `reason || queueReason || "pending_resume"` (first truthy), then
`normalizeText` — the `normalizedReason` of each loop iteration. -/
def resumeReason (reason queueReason : String) : String :=
  normalizeText
    (if reason = "" then
      (if queueReason = "" then "pending_resume" else queueReason)
     else reason)

/-- The store update shared by the pop paths of `resumePendingCapture`
(successful advance and unconditional drop): persist the remainder with
a fresh `createdAt` and rebuilt fingerprint, or clear both keys when the
queue emptied. -/
def resumePopStore (rest : List String) (attempts' : List (String × ℚ))
    (normalizedReason : String) (now : ℚ) (σ : Store) : Store :=
  if rest = [] then clearPendingCaptureQueue σ
  else savePendingCaptureQueue
    { slipIds := rest, createdAt := now, reason := normalizedReason,
      attemptsBySlip := attempts',
      fingerprint := buildPendingQueueFingerprint rest } σ now

/-- The store update of the retriable-failure path: persist without
popping, with the incremented attempt counter. -/
def resumeRetryStore (slipIds : List String) (attempts' : List (String × ℚ))
    (normalizedReason : String) (now : ℚ) (σ : Store) : Store :=
  savePendingCaptureQueue
    { slipIds := slipIds, createdAt := now, reason := normalizedReason,
      attemptsBySlip := attempts',
      fingerprint := buildPendingQueueFingerprint slipIds } σ now

/-- The `while (queue.slipIds.length > 0)` loop of `resumePendingCapture`.
Arguments after the oracle and reason: step index, in-memory
`queue.slipIds`, `queue.attemptsBySlip`, `queue.reason`, store.  Returns
the store and whether the pass suspended early (the retriable-failure
`return`). -/
def resumeLoop (oracle : ℕ → CaptureOutcome) (reason : String) (now : ℚ) :
    ℕ → List String → List (String × ℚ) → String → Store → Store × Bool
  | _, [], _, _, σ => (σ, false)
  | k, targetSlipId :: rest, attemptsMap, queueReason, σ =>
    let attempts := aListGetD attemptsMap targetSlipId
    let normalizedReason := resumeReason reason queueReason
    match oracle k with
    | CaptureOutcome.success resultSlipId =>
      let baseline := normalizeText
        (if resultSlipId = "" then targetSlipId else resultSlipId)
      let σ1 := { σ with lastSeenHeadSlipId := baseline }
      let attempts' := aListErase attemptsMap targetSlipId
      resumeLoop oracle reason now (k + 1) rest attempts' normalizedReason
        (resumePopStore rest attempts' normalizedReason now σ1)
    | outcome =>
      let code := getErrorCode
        (match outcome with
         | CaptureOutcome.notOk => "webhook_send_failed"
         | CaptureOutcome.thrown c => c
         | CaptureOutcome.success _ => "")
      let nextAttempts := attempts + 1
      if isRetriablePendingQueueCode code ∧ nextAttempts < MAX_PENDING_RETRIES then
        (resumeRetryStore (targetSlipId :: rest)
          (aListSet attemptsMap targetSlipId nextAttempts)
          normalizedReason now σ, true)
      else
        let attempts' := aListErase attemptsMap targetSlipId
        let σ1 := resumePopStore rest attempts' normalizedReason now σ
        resumeLoop oracle reason now (k + 1) rest attempts' normalizedReason
          { σ1 with lastSeenHeadSlipId := normalizeText targetSlipId }

/-- `resumePendingCapture(reason)` after its environmental entry guards:
load the fresh queue and drain it. -/
def resumePendingCapture (oracle : ℕ → CaptureOutcome) (reason : String)
    (σ : Store) (now : ℚ) : Store × Bool :=
  match getFreshPendingCaptureQueue σ now with
  | (none, σ') => (σ', false)
  | (some queue, σ') =>
    resumeLoop oracle reason now 0 queue.slipIds queue.attemptsBySlip
      queue.reason σ'

/-! ### ResultDetector: fallback extraction and `handlePaymentResultEntry`

DOM access is made explicit: a payment-result row is the list of
`goMyPurWinDetail` link attribute texts the row's link selector yields,
plus the combined row-text/attribute string of the broader fallback scan.
The API call is an oracle (`none` = non-ok or malformed response). -/

/-- `splitFunctionArguments(raw)`: comma-split outside quotes, tracking a
quote character and a backslash-escape flag; every comma pushes the
trimmed current token, and a trailing nonempty token is pushed at the
end. -/
def splitArgsGo : List Char → List Char → Option Char → Bool → List String → List String
  | [], current, _, _, out =>
    if jsTrim current = [] then out else out ++ [String.mk (jsTrim current)]
  | ch :: rest, current, quote, escaped, out =>
    if escaped then splitArgsGo rest (current ++ [ch]) quote false out
    else if ch = '\\' then splitArgsGo rest (current ++ [ch]) quote true out
    else
      match quote with
      | some q =>
        splitArgsGo rest (current ++ [ch]) (if ch = q then none else some q) false out
      | none =>
        if ch = '\'' ∨ ch = '"' then
          splitArgsGo rest (current ++ [ch]) (some ch) false out
        else if ch = ',' then
          splitArgsGo rest [] none false (out ++ [String.mk (jsTrim current)])
        else splitArgsGo rest (current ++ [ch]) none false out

/-- `splitFunctionArguments` from the content script. -/
def splitFunctionArguments (raw : String) : List String :=
  splitArgsGo raw.data [] none false []

/-- `decodeFunctionToken(token)`: normalize, then strip a matching pair
of surrounding quotes. -/
def decodeFunctionToken (token : String) : String :=
  let text := normalizeText token
  match text.data with
  | [] => ""
  | c :: rest =>
    if (c = '\'' ∧ text.data.getLast? = some '\'') ∨
        (c = '"' ∧ text.data.getLast? = some '"') then
      String.mk ((c :: rest).drop 1).dropLast
    else text

/-- The lazy capture group of
`GO_MY_PUR_WIN_DETAIL_PATTERN = /goMyPurWinDetail\s*\(([\s\S]*?)\)\s*;?/i`:
everything up to the first `)`. -/
def takeUntilParen : List Char → Option (List Char)
  | [] => none
  | ')' :: _ => some []
  | c :: rest => (takeUntilParen rest).map (c :: ·)

/-- Case-insensitive literal prefix match, returning the remainder. -/
def stripPrefixCI : List Char → List Char → Option (List Char)
  | [], rest => some rest
  | _ :: _, [] => none
  | l :: ls, c :: cs => if c.toLower = l then stripPrefixCI ls cs else none

/-- Try the `goMyPurWinDetail` pattern at the head of the list. -/
def matchGoAt (cs : List Char) : Option (List Char) :=
  (stripPrefixCI "gomypurwindetail".data cs).bind fun r1 =>
  match r1.dropWhile isJsWs with
  | '(' :: r2 => takeUntilParen r2
  | _ => none

/-- Leftmost match of the `goMyPurWinDetail` invocation pattern,
returning its captured argument text. -/
def firstGoCapture : List Char → Option (List Char)
  | [] => none
  | c :: rest =>
    match matchGoAt (c :: rest) with
    | some capture => some capture
    | none => firstGoCapture rest

/-- `extractSlipIdFromGoMyPurWinDetailScript(scriptText)`. -/
def extractSlipIdFromGoMyPurWinDetailScript (scriptText : String) : String :=
  match firstGoCapture scriptText.data with
  | some capture =>
    let args := (splitFunctionArguments (String.mk capture)).map decodeFunctionToken
    let fromFourth :=
      if 4 ≤ args.length then
        let a3 := args.getD 3 ""
        if extractSlipId a3 = "" then normalizeText a3 else extractSlipId a3
      else ""
    if fromFourth ≠ "" then fromFourth
    else
      let fromJoined := extractSlipId (String.intercalate " " args)
      if fromJoined ≠ "" then fromJoined
      else extractSlipId scriptText
  | none => extractSlipId scriptText

/-- A payment-result row: the attribute texts of its
`goMyPurWinDetail`-bearing links (already `normalizeText`-ed, as in the
source), and the combined `rowText ++ " " ++ attrs` fallback string. -/
structure ResultRow where
  links : List String
  fallbackText : String
deriving DecidableEq, Repr

/-- Per-row id extraction of `collectPaymentResultSlipIds`. -/
def rowSlipIdOf (row : ResultRow) : String :=
  let fromLinks :=
    row.links.foldl
      (fun found script =>
        if found = "" then extractSlipIdFromGoMyPurWinDetailScript script
        else found) ""
  if fromLinks = "" then extractSlipId row.fallbackText else fromLinks

/-- `collectPaymentResultSlipIds(doc)`: one id per row, deduplicated in
row order. -/
def collectPaymentResultSlipIds (rows : List ResultRow) : List String :=
  (rows.foldl
    (fun (acc : List String) row =>
      let rowSlipId := rowSlipIdOf row
      if rowSlipId = "" ∨ rowSlipId ∈ acc then acc
      else acc ++ [rowSlipId])
    [])

/-- A `buyList` item: the three key names `createSlipEntryFromBuyItem`
probes, each possibly absent. -/
structure BuyItem where
  btkNum : Option String
  buyNo : Option String
  slipId : Option String
deriving DecidableEq, Repr

/-- `pickFirstValue(item, ["btkNum", "buyNo", "slipId"], "")`. -/
def pickBuyItemValue (item : BuyItem) : String :=
  match item.btkNum with
  | some v => if v ≠ "" then v else pickBuyItemValue2 item
  | none => pickBuyItemValue2 item
where
  pickBuyItemValue2 (item : BuyItem) : String :=
    match item.buyNo with
    | some v => if v ≠ "" then v else (item.slipId.getD "")
    | none => item.slipId.getD ""

/-- `createSlipEntryFromBuyItem(item)`: the normalized id, `""` when the
entry is rejected. -/
def createSlipEntryFromBuyItem (item : BuyItem) : String :=
  normalizeText (pickBuyItemValue item)

/-- The entry-merge of `handlePaymentResultEntry`: API entries first
(deduplicated), then fallback ids not already seen. -/
def mergePaymentResultIds (apiBuyList : Option (List BuyItem))
    (fallbackSlipIds : List String) : List String :=
  let apiEntries :=
    match apiBuyList with
    | some buyList =>
      buyList.foldl
        (fun (acc : List String) item =>
          let slipId := createSlipEntryFromBuyItem item
          if slipId = "" ∨ slipId ∈ acc then acc else acc ++ [slipId])
        []
    | none => []
  fallbackSlipIds.foldl
    (fun (acc : List String) fallbackSlipId =>
      if fallbackSlipId = "" ∨ fallbackSlipId ∈ acc then acc
      else acc ++ [fallbackSlipId])
    apiEntries

/-- `handlePaymentResultEntry(reason)` after its two environmental guards
(`isPaymentResultPage`, `isPaymentResultSuccessReady`).  `apiBuyList` is
the PageBridge API result (`none` = fetch failed).  Returns the boolean
result, the store, and the number of `location.assign` calls issued. -/
def handlePaymentResultEntry (apiBuyList : Option (List BuyItem))
    (rows : List ResultRow) (reason : String) (σ : Store) (now : ℚ) :
    Bool × Store × ℕ :=
  let normalizedReason :=
    if normalizeText reason = "" then "payment_result_detected"
    else normalizeText reason
  let fallbackSlipIds := collectPaymentResultSlipIds rows
  let entries := mergePaymentResultIds apiBuyList fallbackSlipIds
  let slipIds := normalizeSlipIdList entries
  if slipIds = [] then (false, σ, 0)
  else
    let fingerprint := buildPendingQueueFingerprint slipIds
    match getFreshPendingCaptureQueue σ now with
    | (some existingQueue, σ1) =>
      if existingQueue.fingerprint = fingerprint then (true, σ1, 0)
      else
        match enqueuePendingCaptureQueue slipIds normalizedReason true σ1 now with
        | (none, σ2) => (false, σ2, 0)
        | (some _, σ2) => (true, σ2, 1)
    | (none, σ1) =>
      match enqueuePendingCaptureQueue slipIds normalizedReason true σ1 now with
      | (none, σ2) => (false, σ2, 0)
      | (some _, σ2) => (true, σ2, 1)

/-! ## Lemmas

### Whitespace normalization: `normalizeText` is idempotent -/

/-- Adjacent characters are not both whitespace. -/
def WsR (a b : Char) : Prop := ¬ (isJsWs a = true ∧ isJsWs b = true)

/-- A character list in `normalizeText`-normal form: every whitespace
character is a plain space, no two adjacent whitespace characters, and
no leading or trailing whitespace. -/
def IsWsNorm (l : List Char) : Prop :=
  (∀ c ∈ l, isJsWs c = true → c = ' ') ∧ List.Chain' WsR l ∧
  (∀ c ∈ l.head?, isJsWs c = false) ∧ (∀ c ∈ l.getLast?, isJsWs c = false)

theorem allSpace_collapseWsAux (prev : Bool) (l : List Char) :
    ∀ c ∈ collapseWsAux prev l, isJsWs c = true → c = ' ' := by
  induction l generalizing prev with
  | nil => simp [collapseWsAux]
  | cons c rest ih =>
    intro d hd hwd
    by_cases hc : isJsWs c = true
    · by_cases hp : prev = true
      · subst hp
        simp only [collapseWsAux, hc, if_pos rfl] at hd
        exact ih true d hd hwd
      · replace hp : prev = false := by revert hp; cases prev <;> simp
        subst hp
        simp only [collapseWsAux, hc, if_pos rfl] at hd
        rcases (List.mem_cons).1 hd with h | h
        · exact h
        · exact ih true d h hwd
    · simp only [collapseWsAux, hc] at hd
      rw [if_neg (by simp [hc])] at hd
      rcases (List.mem_cons).1 hd with h | h
      · subst h; exact absurd hwd (by simp [hc])
      · exact ih false d h hwd

theorem head_collapseWsAux_true (l : List Char) :
    ∀ c ∈ (collapseWsAux true l).head?, isJsWs c = false := by
  induction l with
  | nil => simp [collapseWsAux]
  | cons c rest ih =>
    intro d hd
    by_cases hc : isJsWs c = true
    · simp only [collapseWsAux, if_pos hc, if_pos rfl] at hd
      exact ih d hd
    · simp only [collapseWsAux] at hd
      rw [if_neg (by simp [hc])] at hd
      simp only [List.head?_cons, Option.mem_def, Option.some.injEq] at hd
      subst hd; simpa using hc

theorem chain'_collapseWsAux (l : List Char) :
    ∀ prev, List.Chain' WsR (collapseWsAux prev l) := by
  induction l with
  | nil => intro prev; simp [collapseWsAux]
  | cons c rest ih =>
    intro prev
    by_cases hc : isJsWs c = true
    · cases prev with
      | true => simpa [collapseWsAux, hc] using ih true
      | false =>
        have hstep : collapseWsAux false (c :: rest) = ' ' :: collapseWsAux true rest := by
          simp [collapseWsAux, hc]
        rw [hstep]
        refine (List.chain'_cons').2 ⟨?_, ih true⟩
        intro y hy
        have := head_collapseWsAux_true rest y hy
        exact fun h => by simp [this] at h
    · simp only [collapseWsAux]
      rw [if_neg (by simp [hc])]
      refine (List.chain'_cons').2 ⟨?_, ih false⟩
      intro y _hy
      exact fun h => by simp [hc] at h

theorem collapseWsAux_fix (l : List Char)
    (hSp : ∀ c ∈ l, isJsWs c = true → c = ' ')
    (hCh : List.Chain' WsR l) :
    ∀ prev, (prev = true → ∀ c ∈ l.head?, isJsWs c = false) →
      collapseWsAux prev l = l := by
  induction l with
  | nil => intro prev _; simp [collapseWsAux]
  | cons c rest ih =>
    intro prev hprev
    by_cases hc : isJsWs c = true
    · have hprevF : prev = false := by
        cases prev with
        | false => rfl
        | true =>
          have := hprev rfl c (by simp)
          simp [this] at hc
      subst hprevF
      have hstep : collapseWsAux false (c :: rest) = ' ' :: collapseWsAux true rest := by
        simp [collapseWsAux, hc]
      rw [hstep]
      have hrest : collapseWsAux true rest = rest := by
        refine ih (fun d hd => hSp d (List.mem_cons_of_mem _ hd))
          ((List.chain'_cons').1 hCh).2 true (fun _ d hd => ?_)
        have hR := ((List.chain'_cons').1 hCh).1 d hd
        by_contra hws
        exact hR ⟨hc, by simpa using hws⟩
      rw [hrest, hSp c (by simp) hc]
    · simp only [collapseWsAux]
      rw [if_neg (by simp [hc])]
      rw [ih (fun d hd => hSp d (List.mem_cons_of_mem _ hd))
        ((List.chain'_cons').1 hCh).2 false (by simp)]

theorem head_dropWhile_false (p : Char → Bool) :
    ∀ l : List Char, ∀ c ∈ (l.dropWhile p).head?, p c = false := by
  intro l
  induction l with
  | nil => simp
  | cons c rest ih =>
    intro d hd
    by_cases hc : p c = true
    · rw [List.dropWhile_cons, if_pos hc] at hd
      exact ih d hd
    · rw [List.dropWhile_cons, if_neg (by simp [hc])] at hd
      simp only [List.head?_cons, Option.mem_def, Option.some.injEq] at hd
      subst hd; simpa using hc

theorem dropWhile_eq_self_of_head (p : Char → Bool) (l : List Char)
    (h : ∀ c ∈ l.head?, p c = false) : l.dropWhile p = l := by
  cases l with
  | nil => rfl
  | cons c rest =>
    rw [List.dropWhile_cons, if_neg (by simp [h c (by simp)])]

theorem jsTrim_fix (l : List Char)
    (hHead : ∀ c ∈ l.head?, isJsWs c = false)
    (hLast : ∀ c ∈ l.getLast?, isJsWs c = false) : jsTrim l = l := by
  unfold jsTrim
  rw [dropWhile_eq_self_of_head _ _ hHead]
  rw [dropWhile_eq_self_of_head _ _ (by simpa [List.head?_reverse] using hLast)]
  exact List.reverse_reverse l

/-- `normalizeText` fixes normal-form strings. -/
theorem normalizeText_fix (s : String) (h : IsWsNorm s.data) :
    normalizeText s = s := by
  obtain ⟨hSp, hCh, hHead, hLast⟩ := h
  unfold normalizeText
  rw [collapseWsAux_fix s.data hSp hCh false (by simp)]
  rw [jsTrim_fix s.data hHead hLast]

theorem wsR_of_flip {a b : Char} (h : flip WsR a b) : WsR a b := by
  intro hc; exact h ⟨hc.2, hc.1⟩

theorem chain'_jsTrim (l : List Char) (h : List.Chain' WsR l) :
    List.Chain' WsR (jsTrim l) := by
  unfold jsTrim
  have h1 : List.Chain' WsR (l.dropWhile isJsWs) :=
    h.suffix (List.dropWhile_suffix _)
  have h2 : List.Chain' WsR (l.dropWhile isJsWs).reverse :=
    (List.chain'_reverse).2 (h1.imp (fun _ _ hab h => hab ⟨h.2, h.1⟩))
  have h3 : List.Chain' WsR ((l.dropWhile isJsWs).reverse.dropWhile isJsWs) :=
    h2.suffix (List.dropWhile_suffix _)
  exact (List.chain'_reverse).2 (h3.imp (fun _ _ hab h => hab ⟨h.2, h.1⟩))

theorem mem_jsTrim (l : List Char) : ∀ c ∈ jsTrim l, c ∈ l := by
  intro c hc
  unfold jsTrim at hc
  rw [List.mem_reverse] at hc
  have h1 := (List.dropWhile_suffix (l := (l.dropWhile isJsWs).reverse) isJsWs).subset hc
  rw [List.mem_reverse] at h1
  exact (List.dropWhile_suffix (l := l) isJsWs).subset h1

theorem getLast?_jsTrim_false (l : List Char) :
    ∀ c ∈ (jsTrim l).getLast?, isJsWs c = false := by
  intro c hc
  unfold jsTrim at hc
  rw [List.getLast?_reverse] at hc
  exact head_dropWhile_false isJsWs _ c hc

theorem head?_jsTrim_false (l : List Char) :
    ∀ c ∈ (jsTrim l).head?, isJsWs c = false := by
  intro c hc
  unfold jsTrim at hc
  rw [List.head?_reverse] at hc
  set y := (l.dropWhile isJsWs).reverse.dropWhile isJsWs with hy
  cases hne : y with
  | nil => rw [hne] at hc; simp at hc
  | cons a t =>
    obtain ⟨pre, hpre⟩ := List.dropWhile_suffix
      (l := (l.dropWhile isJsWs).reverse) isJsWs
    rw [← hy] at hpre
    have hgl : y.getLast? = ((l.dropWhile isJsWs).reverse).getLast? := by
      rw [← hpre]
      exact (List.getLast?_append_of_ne_nil _ (by rw [hne]; simp)).symm
    rw [hgl, List.getLast?_reverse] at hc
    exact head_dropWhile_false isJsWs _ c hc

/-- `normalizeText` outputs are in normal form. -/
theorem wsNorm_normalizeText (s : String) : IsWsNorm (normalizeText s).data := by
  have hdata : (normalizeText s).data = jsTrim (collapseWsAux false s.data) := rfl
  refine ⟨?_, ?_, ?_, ?_⟩
  · intro c hc hw
    rw [hdata] at hc
    exact allSpace_collapseWsAux false s.data c (mem_jsTrim _ c hc) hw
  · rw [hdata]; exact chain'_jsTrim _ (chain'_collapseWsAux s.data false)
  · rw [hdata]; exact head?_jsTrim_false _
  · rw [hdata]; exact getLast?_jsTrim_false _

/-- Idempotency of `normalizeText`. -/
theorem normalizeText_idem (s : String) :
    normalizeText (normalizeText s) = normalizeText s :=
  normalizeText_fix _ (wsNorm_normalizeText s)

/-- Strings without any whitespace are in normal form. -/
theorem wsNorm_of_noWs (l : List Char) (h : ∀ c ∈ l, isJsWs c = false) :
    IsWsNorm l := by
  refine ⟨fun c hc hw => absurd hw (by simp [h c hc]), ?_, ?_, ?_⟩
  · induction l with
    | nil => simp
    | cons c rest ih =>
      refine (List.chain'_cons').2 ⟨?_, ih (fun d hd => h d (List.mem_cons_of_mem _ hd))⟩
      intro y _ hc
      simp [h c (by simp)] at hc
  · intro c hc
    cases l with
    | nil => simp at hc
    | cons a t =>
      simp only [List.head?_cons, Option.mem_def, Option.some.injEq] at hc
      exact hc ▸ h a (by simp)
  · intro c hc
    exact h c (List.mem_of_mem_getLast? hc)

/-! ### Stability of `joinBar` under `normalizeText` -/

theorem wsNorm_append_pipe (l1 l2 : List Char) (h1 : IsWsNorm l1)
    (h2 : IsWsNorm l2) (hne1 : l1 ≠ []) (hne2 : l2 ≠ []) :
    IsWsNorm (l1 ++ '|' :: l2) := by
  obtain ⟨hSp1, hCh1, hHead1, hLast1⟩ := h1
  obtain ⟨hSp2, hCh2, hHead2, hLast2⟩ := h2
  refine ⟨?_, ?_, ?_, ?_⟩
  · intro c hc hw
    rcases List.mem_append.1 hc with h | h
    · exact hSp1 c h hw
    · rcases List.mem_cons.1 h with h | h
      · subst h; simp [isJsWs] at hw
      · exact hSp2 c h hw
  · refine (List.chain'_append).2 ⟨hCh1, ?_, ?_⟩
    · refine (List.chain'_cons').2 ⟨?_, hCh2⟩
      intro y _hy hcontra
      have : isJsWs '|' = false := by decide
      simp [this] at hcontra
    · intro x _hx y hy hcontra
      simp only [List.head?_cons, Option.mem_def, Option.some.injEq] at hy
      have : isJsWs '|' = false := by decide
      rw [← hy] at hcontra
      simp [this] at hcontra
  · intro c hc
    rw [List.head?_append_of_ne_nil _ hne1] at hc
    exact hHead1 c hc
  · intro c hc
    rw [List.getLast?_append_of_ne_nil _ (by simp)] at hc
    cases l2 with
    | nil => exact absurd rfl hne2
    | cons a t =>
      rw [List.getLast?_cons_cons] at hc
      exact hLast2 c hc

theorem joinBar_ne_empty (parts : List String) (hne : parts ≠ [])
    (h : ∀ p ∈ parts, p ≠ "") : joinBar parts ≠ "" := by
  cases parts with
  | nil => exact absurd rfl hne
  | cons x xs =>
    cases xs with
    | nil => exact h x (by simp)
    | cons y ys =>
      show x ++ "|" ++ joinBar (y :: ys) ≠ ""
      intro hcontra
      have hd := congrArg String.data hcontra
      simp only [String.data_append] at hd
      simp at hd

theorem wsNorm_joinBar (parts : List String)
    (h : ∀ p ∈ parts, IsWsNorm p.data ∧ p ≠ "") :
    IsWsNorm (joinBar parts).data := by
  induction parts with
  | nil =>
    refine ⟨?_, ?_, ?_, ?_⟩ <;> simp [joinBar]
  | cons x xs ih =>
    cases xs with
    | nil => exact (h x (by simp)).1
    | cons y ys =>
      have hx := h x (by simp)
      have hrest : IsWsNorm (joinBar (y :: ys)).data :=
        ih (fun p hp => h p (List.mem_cons_of_mem _ hp))
      have hrestne : joinBar (y :: ys) ≠ "" :=
        joinBar_ne_empty _ (by simp) (fun p hp => (h p (List.mem_cons_of_mem _ hp)).2)
      have hdata : (joinBar (x :: y :: ys)).data =
          x.data ++ '|' :: (joinBar (y :: ys)).data := by
        show ((x ++ "|") ++ joinBar (y :: ys)).data = _
        simp [String.data_append]
      rw [hdata]
      refine wsNorm_append_pipe _ _ hx.1 hrest ?_ ?_
      · intro hcontra
        exact hx.2 (by cases x; simp_all)
      · intro hcontra
        exact hrestne (by cases hjb : joinBar (y :: ys); simp_all)

/-! ### The slip-token shape and `extractSlipId` -/

/-- The shape of a full `SLIP_ID_PATTERN` match. -/
def TokenShape (m : List Char) : Prop :=
  ∃ g1 g2 g3 g4 : List Char,
    (g1.length = 4 ∧ ∀ c ∈ g1, isSlipChar c = true) ∧
    (g2.length = 4 ∧ ∀ c ∈ g2, isSlipChar c = true) ∧
    (g3.length = 4 ∧ ∀ c ∈ g3, isSlipChar c = true) ∧
    (g4.length = 4 ∧ ∀ c ∈ g4, isSlipChar c = true) ∧
    m = g1 ++ ('-' :: (g2 ++ ('-' :: (g3 ++ ('-' :: g4)))))

theorem isJsWs_false_of_slipChar (c : Char) (h : isSlipChar c = true) :
    isJsWs c = false := by
  by_contra hws
  have hws' : isJsWs c = true := by revert hws; cases hv : isJsWs c <;> simp
  have hmem := hws'
  simp only [isJsWs, Bool.or_eq_true, decide_eq_true_eq] at hmem
  rcases hmem with (((((((rfl | rfl) | rfl) | rfl) | rfl) | rfl) | rfl) | rfl) <;>
    simp [isSlipChar] at h

theorem matchCount_sound : ∀ (n : ℕ) (cs g r : List Char),
    matchCount n cs = some (g, r) →
    g.length = n ∧ (∀ c ∈ g, isSlipChar c = true) ∧ cs = g ++ r := by
  intro n
  induction n with
  | zero =>
    intro cs g r h
    simp only [matchCount, Option.some.injEq, Prod.mk.injEq] at h
    obtain ⟨h1, h2⟩ := h
    subst h1; subst h2
    exact ⟨rfl, by simp, rfl⟩
  | succ k ih =>
    intro cs g r h
    cases cs with
    | nil => simp [matchCount] at h
    | cons c rest =>
      simp only [matchCount] at h
      by_cases hc : isSlipChar c = true
      · rw [if_pos hc] at h
        cases hmc : matchCount k rest with
        | none => rw [hmc] at h; simp at h
        | some gr =>
          rw [hmc] at h
          simp only [Option.map_some', Option.some.injEq, Prod.mk.injEq] at h
          obtain ⟨h1, h2⟩ := h
          obtain ⟨hl, hall, heq⟩ := ih rest gr.1 gr.2 (by rw [hmc])
          subst h2
          refine ⟨?_, ?_, ?_⟩
          · rw [← h1]; simp [hl]
          · intro d hd
            rw [← h1] at hd
            rcases List.mem_cons.1 hd with h | h
            · subst h; exact hc
            · exact hall d h
          · rw [← h1]; simp [heq]
      · rw [if_neg hc] at h; simp at h

theorem matchCount_complete : ∀ (n : ℕ) (g r : List Char),
    g.length = n → (∀ c ∈ g, isSlipChar c = true) →
    matchCount n (g ++ r) = some (g, r) := by
  intro n
  induction n with
  | zero =>
    intro g r hl _
    rw [List.length_eq_zero.1 hl]
    simp [matchCount]
  | succ k ih =>
    intro g r hl hall
    cases g with
    | nil => simp at hl
    | cons c gs =>
      simp only [List.length_cons, Nat.succ.injEq] at hl
      have hrest := ih gs r hl (fun d hd => hall d (List.mem_cons_of_mem _ hd))
      show matchCount (k + 1) (c :: (gs ++ r)) = some (c :: gs, r)
      simp only [matchCount, if_pos (hall c (by simp)), hrest, Option.map_some']

theorem matchSlip_sound (cs m : List Char) (h : matchSlip cs = some m) :
    TokenShape m := by
  unfold matchSlip at h
  cases h1 : matchCount 4 cs with
  | none => rw [h1] at h; simp at h
  | some p1 =>
    rw [h1] at h
    simp only [Option.bind_eq_bind, Option.some_bind] at h
    cases h2 : matchDash p1.2 with
    | none => rw [h2] at h; simp at h
    | some r1 =>
      rw [h2] at h
      simp only [Option.some_bind] at h
      cases h3 : matchCount 4 r1 with
      | none => rw [h3] at h; simp at h
      | some p2 =>
        rw [h3] at h
        simp only [Option.some_bind] at h
        cases h4 : matchDash p2.2 with
        | none => rw [h4] at h; simp at h
        | some r2 =>
          rw [h4] at h
          simp only [Option.some_bind] at h
          cases h5 : matchCount 4 r2 with
          | none => rw [h5] at h; simp at h
          | some p3 =>
            rw [h5] at h
            simp only [Option.some_bind] at h
            cases h6 : matchDash p3.2 with
            | none => rw [h6] at h; simp at h
            | some r3 =>
              rw [h6] at h
              simp only [Option.some_bind] at h
              cases h7 : matchCount 4 r3 with
              | none => rw [h7] at h; simp at h
              | some p4 =>
                rw [h7] at h
                simp only [Option.map_some', Option.some.injEq] at h
                obtain ⟨l1, a1, e1⟩ := matchCount_sound 4 cs p1.1 p1.2 h1
                obtain ⟨l2, a2, _⟩ := matchCount_sound 4 r1 p2.1 p2.2 h3
                obtain ⟨l3, a3, _⟩ := matchCount_sound 4 r2 p3.1 p3.2 h5
                obtain ⟨l4, a4, _⟩ := matchCount_sound 4 r3 p4.1 p4.2 h7
                refine ⟨p1.1, p2.1, p3.1, p4.1, ⟨l1, a1⟩, ⟨l2, a2⟩,
                  ⟨l3, a3⟩, ⟨l4, a4⟩, ?_⟩
                rw [← h]
                simp [List.append_assoc]

theorem matchSlip_complete (m : List Char) (h : TokenShape m) :
    matchSlip m = some m := by
  obtain ⟨g1, g2, g3, g4, ⟨l1, a1⟩, ⟨l2, a2⟩, ⟨l3, a3⟩, ⟨l4, a4⟩, hm⟩ := h
  subst hm
  unfold matchSlip
  rw [matchCount_complete 4 g1 ('-' :: (g2 ++ ('-' :: (g3 ++ ('-' :: g4))))) l1 a1]
  simp only [Option.bind_eq_bind, Option.some_bind, matchDash]
  rw [matchCount_complete 4 g2 ('-' :: (g3 ++ ('-' :: g4))) l2 a2]
  simp only [Option.some_bind, matchDash]
  rw [matchCount_complete 4 g3 ('-' :: g4) l3 a3]
  simp only [Option.some_bind, matchDash]
  have h4 : matchCount 4 g4 = some (g4, []) := by
    have h4' := matchCount_complete 4 g4 [] l4 a4
    rwa [List.append_nil] at h4'
  rw [h4]
  simp [List.append_assoc]

theorem firstSlipFrom_sound : ∀ (cs m : List Char),
    firstSlipFrom cs = some m → TokenShape m := by
  intro cs
  induction cs with
  | nil => intro m h; simp [firstSlipFrom] at h
  | cons c rest ih =>
    intro m h
    unfold firstSlipFrom at h
    cases hms : matchSlip (c :: rest) with
    | some m' =>
      rw [hms] at h
      simp only [Option.some.injEq] at h
      exact h ▸ matchSlip_sound _ _ hms
    | none =>
      rw [hms] at h
      exact ih m h

theorem tokenShape_ne_nil (m : List Char) (h : TokenShape m) : m ≠ [] := by
  obtain ⟨g1, _, _, _, _, _, _, _, hm⟩ := h
  subst hm
  simp

theorem firstSlipFrom_self (m : List Char) (h : TokenShape m) :
    firstSlipFrom m = some m := by
  have hms := matchSlip_complete m h
  cases hm : m with
  | nil => exact absurd hm (tokenShape_ne_nil m h)
  | cons c rest =>
    rw [hm] at hms
    unfold firstSlipFrom
    rw [hms]

theorem tokenShape_noWs (m : List Char) (h : TokenShape m) :
    ∀ c ∈ m, isJsWs c = false := by
  obtain ⟨g1, g2, g3, g4, ⟨_, a1⟩, ⟨_, a2⟩, ⟨_, a3⟩, ⟨_, a4⟩, hm⟩ := h
  subst hm
  intro c hc
  have hdash : isJsWs '-' = false := by decide
  simp only [List.mem_append, List.mem_cons] at hc
  rcases hc with h | (rfl | (h | (rfl | (h | (rfl | h)))))
  · exact isJsWs_false_of_slipChar c (a1 c h)
  · exact hdash
  · exact isJsWs_false_of_slipChar c (a2 c h)
  · exact hdash
  · exact isJsWs_false_of_slipChar c (a3 c h)
  · exact hdash
  · exact isJsWs_false_of_slipChar c (a4 c h)

/-- `extractSlipId` returns `""` or a full pattern match. -/
theorem extractSlipId_empty_or_token (s : String) :
    extractSlipId s = "" ∨ TokenShape (extractSlipId s).data := by
  unfold extractSlipId
  cases h : firstSlipFrom s.data with
  | none => left; rfl
  | some m =>
    right
    exact firstSlipFrom_sound _ m h

/-- A full pattern match is fixed by `extractSlipId`. -/
theorem extractSlipId_token_self (t : String) (h : TokenShape t.data) :
    extractSlipId t = t := by
  unfold extractSlipId
  rw [firstSlipFrom_self t.data h]

/-- A full pattern match is fixed by `normalizeText`. -/
theorem normalizeText_token_self (t : String) (h : TokenShape t.data) :
    normalizeText t = t :=
  normalizeText_fix t (wsNorm_of_noWs t.data (tokenShape_noWs t.data h))

/-! ### Stability of `slipOf` and `normalizeSlipIdList` -/

theorem wsNorm_slipOf (raw : String) : IsWsNorm (slipOf raw).data := by
  unfold slipOf
  by_cases h : extractSlipId (normalizeText raw) = ""
  · simp only [h, if_pos rfl]
    exact wsNorm_normalizeText raw
  · rw [if_neg h]
    rcases extractSlipId_empty_or_token (normalizeText raw) with h' | h'
    · exact absurd h' h
    · exact wsNorm_of_noWs _ (tokenShape_noWs _ h')

theorem slipOf_idem (raw : String) : slipOf (slipOf raw) = slipOf raw := by
  by_cases h : extractSlipId (normalizeText raw) = ""
  · have h1 : slipOf raw = normalizeText raw := by simp [slipOf, h]
    rw [h1]
    unfold slipOf
    rw [normalizeText_idem raw, h]
    simp
  · have htok : TokenShape (extractSlipId (normalizeText raw)).data := by
      rcases extractSlipId_empty_or_token (normalizeText raw) with h' | h'
      · exact absurd h' h
      · exact h'
    have h1 : slipOf raw = extractSlipId (normalizeText raw) := by
      simp [slipOf, h]
    rw [h1]
    unfold slipOf
    rw [normalizeText_token_self _ htok, extractSlipId_token_self _ htok, if_neg h]

theorem normalizeSlipIdGo_sound : ∀ (l : List String) (acc : List String),
    ∀ e ∈ normalizeSlipIdGo l acc,
      e ∈ acc ∨ (e ≠ "" ∧ ∃ raw ∈ l, e = slipOf raw) := by
  intro l
  induction l with
  | nil => intro acc e he; exact Or.inl he
  | cons raw rest ih =>
    intro acc e he
    unfold normalizeSlipIdGo at he
    by_cases hskip : slipOf raw = "" ∨ slipOf raw ∈ acc
    · rw [if_pos hskip] at he
      rcases ih acc e he with h | ⟨hne, raw', hmem, heq⟩
      · exact Or.inl h
      · exact Or.inr ⟨hne, raw', List.mem_cons_of_mem _ hmem, heq⟩
    · rw [if_neg hskip] at he
      push_neg at hskip
      rcases ih _ e he with h | ⟨hne, raw', hmem, heq⟩
      · rcases List.mem_append.1 h with h' | h'
        · exact Or.inl h'
        · rcases List.mem_singleton.1 h' with rfl
          exact Or.inr ⟨hskip.1, raw, by simp, rfl⟩
      · exact Or.inr ⟨hne, raw', List.mem_cons_of_mem _ hmem, heq⟩

theorem normalizeSlipIdGo_nodup : ∀ (l : List String) (acc : List String),
    acc.Nodup → (normalizeSlipIdGo l acc).Nodup := by
  intro l
  induction l with
  | nil => intro acc h; exact h
  | cons raw rest ih =>
    intro acc h
    unfold normalizeSlipIdGo
    by_cases hskip : slipOf raw = "" ∨ slipOf raw ∈ acc
    · rw [if_pos hskip]; exact ih acc h
    · rw [if_neg hskip]
      push_neg at hskip
      refine ih _ ?_
      rw [List.nodup_append]
      exact ⟨h, List.nodup_singleton _, by simpa using hskip.2⟩

theorem normalizeSlipIdGo_fix : ∀ (l : List String) (acc : List String),
    (∀ e ∈ l, slipOf e = e ∧ e ≠ "") → l.Nodup → (∀ e ∈ l, e ∉ acc) →
    normalizeSlipIdGo l acc = acc ++ l := by
  intro l
  induction l with
  | nil => intro acc _ _ _; simp [normalizeSlipIdGo]
  | cons e rest ih =>
    intro acc hstable hnd hdisj
    obtain ⟨hse, hne⟩ := hstable e (by simp)
    unfold normalizeSlipIdGo
    rw [hse, if_neg (by
      push_neg
      exact ⟨hne, hdisj e (by simp)⟩)]
    rw [ih (acc ++ [e])
      (fun d hd => hstable d (List.mem_cons_of_mem _ hd))
      ((List.nodup_cons).1 hnd).2
      (fun d hd => by
        simp only [List.mem_append, List.mem_singleton]
        push_neg
        exact ⟨hdisj d (List.mem_cons_of_mem _ hd),
          fun hcontra => ((List.nodup_cons).1 hnd).1 (hcontra ▸ hd)⟩)]
    simp

theorem normalizeSlipIdList_mem (input : List String) :
    ∀ e ∈ normalizeSlipIdList input, e ≠ "" ∧ ∃ raw ∈ input, e = slipOf raw := by
  intro e he
  rcases normalizeSlipIdGo_sound input [] e he with h | h
  · simp at h
  · exact h

theorem normalizeSlipIdList_nodup (input : List String) :
    (normalizeSlipIdList input).Nodup :=
  normalizeSlipIdGo_nodup input [] (List.nodup_nil)

theorem normalizeSlipIdList_stable (input : List String) :
    ∀ e ∈ normalizeSlipIdList input, slipOf e = e ∧ e ≠ "" := by
  intro e he
  obtain ⟨hne, raw, _, heq⟩ := normalizeSlipIdList_mem input e he
  exact ⟨heq ▸ slipOf_idem raw, hne⟩

theorem normalizeSlipIdList_wsNorm (input : List String) :
    ∀ e ∈ normalizeSlipIdList input, IsWsNorm e.data := by
  intro e he
  obtain ⟨_, raw, _, heq⟩ := normalizeSlipIdList_mem input e he
  exact heq ▸ wsNorm_slipOf raw

/-- Renormalizing a normalized id list is the identity. -/
theorem normalizeSlipIdList_idem (input : List String) :
    normalizeSlipIdList (normalizeSlipIdList input) = normalizeSlipIdList input := by
  unfold normalizeSlipIdList
  rw [normalizeSlipIdGo_fix (normalizeSlipIdGo input []) []
    (normalizeSlipIdList_stable input) (normalizeSlipIdList_nodup input)
    (by simp)]
  simp

/-- A list whose elements are all stable, nonempty and distinct is fixed
by `normalizeSlipIdList`. -/
theorem normalizeSlipIdList_fix (l : List String)
    (h : ∀ e ∈ l, slipOf e = e ∧ e ≠ "") (hnd : l.Nodup) :
    normalizeSlipIdList l = l := by
  unfold normalizeSlipIdList
  rw [normalizeSlipIdGo_fix l [] h hnd (by simp)]
  simp

/-! ### Stability of the fingerprint -/

/-- The fingerprint of a normalized list is its plain `"|"`-join. -/
theorem build_fingerprint_of_normalized (l : List String)
    (h : ∀ e ∈ l, slipOf e = e ∧ e ≠ "") (hnd : l.Nodup) :
    buildPendingQueueFingerprint l = joinBar l := by
  unfold buildPendingQueueFingerprint
  rw [normalizeSlipIdList_fix l h hnd]

theorem wsNorm_joinBar_of_stable (l : List String)
    (hstable : ∀ e ∈ l, slipOf e = e ∧ e ≠ "")
    (hws : ∀ e ∈ l, IsWsNorm e.data) :
    IsWsNorm (joinBar l).data :=
  wsNorm_joinBar l (fun p hp => ⟨hws p hp, (hstable p hp).2⟩)

/-- `normalizeText` fixes the fingerprint of a normalized queue. -/
theorem normalizeText_build_fingerprint (input : List String) :
    normalizeText (buildPendingQueueFingerprint input) =
      buildPendingQueueFingerprint input := by
  unfold buildPendingQueueFingerprint
  exact normalizeText_fix _
    (wsNorm_joinBar_of_stable _ (normalizeSlipIdList_stable input)
      (normalizeSlipIdList_wsNorm input))

theorem build_fingerprint_ne_empty (input : List String)
    (h : normalizeSlipIdList input ≠ []) :
    buildPendingQueueFingerprint input ≠ "" :=
  joinBar_ne_empty _ h (fun p hp => (normalizeSlipIdList_stable input p hp).2)

/-! ### `normalizePendingQueuePayload`: characterization and idempotency -/

theorem aListFind_map_self (l : List String) (f : String → ℚ) (s : String)
    (h : s ∈ l) : aListFind (l.map (fun x => (x, f x))) s = some (f s) := by
  induction l with
  | nil => simp at h
  | cons x rest ih =>
    unfold aListFind
    by_cases hx : x = s
    · subst hx
      simp [List.find?]
    · rcases List.mem_cons.1 h with h' | h'
      · exact absurd h'.symm hx
      · have := ih h'
        unfold aListFind at this
        simpa [List.find?, hx] using this

theorem clampAttempt_idem (a : ℚ) :
    clampAttempt (clampAttempt a) = clampAttempt a := by
  unfold clampAttempt
  by_cases h : 0 ≤ a
  · rw [if_pos h]
    have h1 : (0 : ℚ) ≤ (⌊a⌋ : ℚ) := by
      exact_mod_cast Int.floor_nonneg.2 h
    rw [if_pos h1, Int.floor_intCast]
  · rw [if_neg h]
    norm_num

theorem normalize_some_iff (p : QueuePayload) (now : ℚ) (q : QueuePayload) :
    normalizePendingQueuePayload p now = some q ↔
      normalizeSlipIdList p.slipIds ≠ [] ∧
      q = { slipIds := normalizeSlipIdList p.slipIds
            createdAt := if 0 < p.createdAt then p.createdAt else now
            reason := normalizeText p.reason
            attemptsBySlip := (normalizeSlipIdList p.slipIds).map
              (fun s => (s, clampAttempt (aListGetD p.attemptsBySlip s)))
            fingerprint :=
              if normalizeText p.fingerprint = "" then
                buildPendingQueueFingerprint (normalizeSlipIdList p.slipIds)
              else normalizeText p.fingerprint } := by
  unfold normalizePendingQueuePayload
  by_cases h : normalizeSlipIdList p.slipIds = []
  · rw [if_pos h]
    simp [h]
  · rw [if_neg h]
    simp only [Option.some.injEq]
    constructor
    · intro he; exact ⟨h, he.symm⟩
    · intro ⟨_, he⟩; exact he.symm

/-- `normalizePendingQueuePayload` is idempotent on its outputs (for a
positive `now`, as `Date.now()` always is). -/
theorem normalizePendingQueuePayload_idem (p : QueuePayload) (now : ℚ)
    (q : QueuePayload) (hnow : 0 < now)
    (h : normalizePendingQueuePayload p now = some q) :
    ∀ now', normalizePendingQueuePayload q now' = some q := by
  intro now'
  obtain ⟨hne, hq⟩ := (normalize_some_iff p now q).1 h
  have hslip : q.slipIds = normalizeSlipIdList p.slipIds := by rw [hq]
  have hidem : normalizeSlipIdList q.slipIds = q.slipIds := by
    rw [hslip]; exact normalizeSlipIdList_idem p.slipIds
  rw [normalize_some_iff]
  refine ⟨by rw [hidem, hslip]; exact hne, ?_⟩
  have hstable := normalizeSlipIdList_stable p.slipIds
  have hwsn := normalizeSlipIdList_wsNorm p.slipIds
  have hcreated : (if 0 < q.createdAt then q.createdAt else now') = q.createdAt := by
    rw [if_pos]
    rw [hq]
    by_cases hc : 0 < p.createdAt
    · rw [if_pos hc]; exact hc
    · rw [if_neg hc]; exact hnow
  have hreason : normalizeText q.reason = q.reason := by
    rw [hq]; exact normalizeText_idem p.reason
  have hattempts : (normalizeSlipIdList q.slipIds).map
      (fun s => (s, clampAttempt (aListGetD q.attemptsBySlip s))) =
      q.attemptsBySlip := by
    rw [hidem, hslip]
    conv_rhs => rw [hq]
    refine List.map_congr_left ?_
    intro s hs
    have hfind : aListFind ((normalizeSlipIdList p.slipIds).map
        (fun x => (x, clampAttempt (aListGetD p.attemptsBySlip x)))) s =
        some (clampAttempt (aListGetD p.attemptsBySlip s)) :=
      aListFind_map_self _ _ s hs
    have hgetd : aListGetD q.attemptsBySlip s =
        clampAttempt (aListGetD p.attemptsBySlip s) := by
      unfold aListGetD
      rw [hq]
      simp only
      rw [hfind]
      rfl
    rw [hgetd, clampAttempt_idem]
  have hfp : (if normalizeText q.fingerprint = "" then
      buildPendingQueueFingerprint (normalizeSlipIdList q.slipIds)
      else normalizeText q.fingerprint) = q.fingerprint := by
    rw [hidem, hslip]
    by_cases hpf : normalizeText p.fingerprint = ""
    · have hqfp : q.fingerprint =
          buildPendingQueueFingerprint (normalizeSlipIdList p.slipIds) := by
        rw [hq]; simp [hpf]
      have hbuild : buildPendingQueueFingerprint (normalizeSlipIdList p.slipIds) =
          joinBar (normalizeSlipIdList p.slipIds) :=
        build_fingerprint_of_normalized _ hstable (normalizeSlipIdList_nodup _)
      have hfix : normalizeText q.fingerprint = q.fingerprint := by
        rw [hqfp, hbuild]
        exact normalizeText_fix _ (wsNorm_joinBar_of_stable _ hstable hwsn)
      have hnonempty : q.fingerprint ≠ "" := by
        rw [hqfp, hbuild]
        exact joinBar_ne_empty _ hne (fun e he => (hstable e he).2)
      rw [hfix, if_neg hnonempty]
    · have hqfp : q.fingerprint = normalizeText p.fingerprint := by
        rw [hq]; simp [hpf]
      have hfix : normalizeText q.fingerprint = q.fingerprint := by
        rw [hqfp]; exact normalizeText_idem p.fingerprint
      rw [hfix, if_neg (by rw [hqfp]; exact hpf)]
  cases q
  simp only [QueuePayload.mk.injEq]
  exact ⟨hidem.symm, hcreated.symm, hreason.symm, hattempts.symm, hfp.symm⟩

/-! ### Compression-ladder lemmas -/

theorem tryQualityLadder_cons_none (toBlob : BlobOracle) (c : Canvas)
    (q : ℚ) (rest : List ℚ) (best0 : Option ℕ) (h : toBlob c q = none) :
    tryQualityLadder toBlob c (q :: rest) best0 =
      tryQualityLadder toBlob c rest best0 := by
  conv_lhs => unfold tryQualityLadder
  rw [h]

theorem tryQualityLadder_cons_within (toBlob : BlobOracle) (c : Canvas)
    (q : ℚ) (rest : List ℚ) (best0 : Option ℕ) (blob : ℕ)
    (h : toBlob c q = some blob) (hle : blob ≤ MAX_UPLOAD_BYTES) :
    tryQualityLadder toBlob c (q :: rest) best0 = ([blob], Sum.inl blob) := by
  conv_lhs => unfold tryQualityLadder
  rw [h]
  simp [hle]

theorem tryQualityLadder_cons_over (toBlob : BlobOracle) (c : Canvas)
    (q : ℚ) (rest : List ℚ) (best0 : Option ℕ) (blob : ℕ)
    (h : toBlob c q = some blob) (hle : ¬ blob ≤ MAX_UPLOAD_BYTES) :
    tryQualityLadder toBlob c (q :: rest) best0 =
      (blob :: (tryQualityLadder toBlob c rest (some blob)).1,
       (tryQualityLadder toBlob c rest (some blob)).2) := by
  conv_lhs => unfold tryQualityLadder
  rw [h]
  simp [hle]

theorem tryQualityLadder_inl (toBlob : BlobOracle) (c : Canvas) :
    ∀ (qs : List ℚ) (best0 : Option ℕ) (b : ℕ),
      (tryQualityLadder toBlob c qs best0).2 = Sum.inl b →
      b ≤ MAX_UPLOAD_BYTES ∧ b ∈ (tryQualityLadder toBlob c qs best0).1 := by
  intro qs
  induction qs with
  | nil => intro best0 b h; simp [tryQualityLadder] at h
  | cons q rest ih =>
    intro best0 b h
    cases hblob : toBlob c q with
    | none =>
      rw [tryQualityLadder_cons_none toBlob c q rest best0 hblob] at h ⊢
      exact ih best0 b h
    | some blob =>
      by_cases hle : blob ≤ MAX_UPLOAD_BYTES
      · rw [tryQualityLadder_cons_within toBlob c q rest best0 blob hblob hle] at h ⊢
        simp only [Sum.inl.injEq] at h
        subst h
        exact ⟨hle, by simp⟩
      · rw [tryQualityLadder_cons_over toBlob c q rest best0 blob hblob hle] at h ⊢
        simp only at h
        obtain ⟨h1, h2⟩ := ih (some blob) b h
        exact ⟨h1, by simp [h2]⟩

theorem tryQualityLadder_within (toBlob : BlobOracle) (c : Canvas) :
    ∀ (qs : List ℚ) (best0 : Option ℕ),
      (∃ x ∈ (tryQualityLadder toBlob c qs best0).1, x ≤ MAX_UPLOAD_BYTES) →
      ∃ b, (tryQualityLadder toBlob c qs best0).2 = Sum.inl b ∧
        b ≤ MAX_UPLOAD_BYTES := by
  intro qs
  induction qs with
  | nil =>
    intro best0 h
    simp [tryQualityLadder] at h
  | cons q rest ih =>
    intro best0 h
    cases hblob : toBlob c q with
    | none =>
      rw [tryQualityLadder_cons_none toBlob c q rest best0 hblob] at h ⊢
      exact ih best0 h
    | some blob =>
      by_cases hle : blob ≤ MAX_UPLOAD_BYTES
      · rw [tryQualityLadder_cons_within toBlob c q rest best0 blob hblob hle]
        exact ⟨blob, rfl, hle⟩
      · rw [tryQualityLadder_cons_over toBlob c q rest best0 blob hblob hle] at h ⊢
        simp only at h ⊢
        obtain ⟨x, hx, hxle⟩ := h
        rcases List.mem_cons.1 hx with rfl | hx'
        · exact absurd hxle hle
        · exact ih (some blob) ⟨x, hx', hxle⟩

theorem tryQualityLadder_over (toBlob : BlobOracle) (c : Canvas) :
    ∀ (qs : List ℚ) (best0 : Option ℕ),
      (∀ x ∈ (tryQualityLadder toBlob c qs best0).1, MAX_UPLOAD_BYTES < x) →
      (tryQualityLadder toBlob c qs best0).2 =
        Sum.inr ((tryQualityLadder toBlob c qs best0).1.getLast?.or best0) := by
  intro qs
  induction qs with
  | nil => intro best0 _; simp [tryQualityLadder]
  | cons q rest ih =>
    intro best0 h
    cases hblob : toBlob c q with
    | none =>
      rw [tryQualityLadder_cons_none toBlob c q rest best0 hblob] at h ⊢
      exact ih best0 h
    | some blob =>
      by_cases hle : blob ≤ MAX_UPLOAD_BYTES
      · rw [tryQualityLadder_cons_within toBlob c q rest best0 blob hblob hle] at h
        have := h blob (by simp)
        omega
      · rw [tryQualityLadder_cons_over toBlob c q rest best0 blob hblob hle] at h ⊢
        simp only at h ⊢
        have hrest := ih (some blob) (fun x hx => h x (by simp [hx]))
        rw [hrest]
        congr 1
        cases ht : (tryQualityLadder toBlob c rest (some blob)).1 with
        | nil => simp
        | cons y ys =>
          rw [List.getLast?_cons_cons]
          have hne : (y :: ys).getLast?.isSome := by
            simp [List.getLast?_isSome]
          cases hl : (y :: ys).getLast? with
          | none => rw [hl] at hne; simp at hne
          | some z => simp [Option.or]

theorem getLast?_append_or (l1 l2 : List ℕ) :
    (l1 ++ l2).getLast? = l2.getLast?.or l1.getLast? := by
  cases hl : l2 with
  | nil => simp [Option.or]
  | cons y ys =>
    rw [List.getLast?_append_of_ne_nil _ (by simp)]
    have : (y :: ys).getLast?.isSome := by simp [List.getLast?_isSome]
    cases hg : (y :: ys).getLast? with
    | none => rw [hg] at this; simp at this
    | some z => simp [Option.or]

/-! ## Claims -/

/-- C1 (counterexample): with an encoder for which the second candidate
is the smallest (8,000,000 bytes) but every candidate is over budget, the
ladder returns the last candidate (8,700,000 bytes), not the smallest. -/
def c1Oracle : BlobOracle := fun c q =>
  if c.width = 1600 then
    (if q = (85 / 100 : ℚ) then some 9000000
     else if q = (72 / 100 : ℚ) then some 8000000
     else some 8500000)
  else
    (if q = (68 / 100 : ℚ) then some 8600000 else some 8700000)

/-- The canvas for the C1 counterexample. -/
def c1Canvas : Canvas := { width := 1600, height := 1000 }

/-- C1 counterexample: the claim "if no tried combination satisfies the
budget, the returned blob is the smallest among all attempted candidates"
fails: every attempt exceeds the budget, `8000000` was attempted, yet the
returned blob is `8700000 > 8000000`. -/
theorem C1_counterexample :
    (∀ x ∈ ladderAttempts c1Oracle c1Canvas, ¬ x ≤ MAX_UPLOAD_BYTES) ∧
    canvasToCompressedJpegBlob c1Oracle c1Canvas = some 8700000 ∧
    8000000 ∈ ladderAttempts c1Oracle c1Canvas ∧
    ¬ (8700000 : ℕ) ≤ 8000000 := by
  have hladder : canvasLadder c1Oracle c1Canvas =
      ([9000000, 8000000, 8500000, 8600000, 8700000], some 8700000) := by
    norm_num [canvasLadder, tryQualityLadder, c1Oracle, c1Canvas, resizeCanvas,
      MAX_UPLOAD_BYTES, PRIMARY_MAX_WIDTH, FALLBACK_MAX_WIDTH]
    simp
  refine ⟨?_, ?_, ?_, by norm_num⟩
  · unfold ladderAttempts
    rw [hladder]
    norm_num [MAX_UPLOAD_BYTES]
  · unfold canvasToCompressedJpegBlob
    rw [hladder]
  · unfold ladderAttempts
    rw [hladder]
    norm_num

/-- C1 (amended): if any tried width/quality combination produces a blob
within the 7,500,000-byte budget, the returned blob is within the budget;
if none does, the returned blob is the **last** non-null candidate
attempted (the source keeps overwriting `bestBlob` without comparing
sizes, so the smallest candidate is returned only when sizes are
non-increasing along the ladder). -/
theorem C1_compression_ladder (toBlob : BlobOracle) (canvas : Canvas) :
    ((∃ x ∈ ladderAttempts toBlob canvas, x ≤ MAX_UPLOAD_BYTES) →
      ∃ r, canvasToCompressedJpegBlob toBlob canvas = some r ∧
        r ≤ MAX_UPLOAD_BYTES) ∧
    ((∀ x ∈ ladderAttempts toBlob canvas, MAX_UPLOAD_BYTES < x) →
      canvasToCompressedJpegBlob toBlob canvas =
        (ladderAttempts toBlob canvas).getLast?) := by
  rcases h1 : tryQualityLadder toBlob (resizeCanvas canvas PRIMARY_MAX_WIDTH)
      [0.85, 0.72, 0.6] none with ⟨t1, o1⟩
  have ht1 : (tryQualityLadder toBlob (resizeCanvas canvas PRIMARY_MAX_WIDTH)
      [0.85, 0.72, 0.6] none).1 = t1 := by rw [h1]
  have ho1 : (tryQualityLadder toBlob (resizeCanvas canvas PRIMARY_MAX_WIDTH)
      [0.85, 0.72, 0.6] none).2 = o1 := by rw [h1]
  cases o1 with
  | inl b =>
    have hlad : canvasLadder toBlob canvas = (t1, some b) := by
      unfold canvasLadder
      rw [h1]
    obtain ⟨hble, hmem⟩ := tryQualityLadder_inl toBlob _ _ none b (by rw [ho1])
    rw [ht1] at hmem
    constructor
    · intro _
      refine ⟨b, ?_, hble⟩
      unfold canvasToCompressedJpegBlob
      rw [hlad]
    · intro hall
      have := hall b (by unfold ladderAttempts; rw [hlad]; exact hmem)
      omega
  | inr best1 =>
    rcases h2 : tryQualityLadder toBlob
        (resizeCanvas (resizeCanvas canvas PRIMARY_MAX_WIDTH) FALLBACK_MAX_WIDTH)
        [0.68, 0.56] best1 with ⟨t2, o2⟩
    have ht2 : (tryQualityLadder toBlob
        (resizeCanvas (resizeCanvas canvas PRIMARY_MAX_WIDTH) FALLBACK_MAX_WIDTH)
        [0.68, 0.56] best1).1 = t2 := by rw [h2]
    have ho2 : (tryQualityLadder toBlob
        (resizeCanvas (resizeCanvas canvas PRIMARY_MAX_WIDTH) FALLBACK_MAX_WIDTH)
        [0.68, 0.56] best1).2 = o2 := by rw [h2]
    cases o2 with
    | inl b =>
      have hlad : canvasLadder toBlob canvas = (t1 ++ t2, some b) := by
        unfold canvasLadder
        simp only [h1, h2]
      obtain ⟨hble, hmem⟩ := tryQualityLadder_inl toBlob _ _ best1 b (by rw [ho2])
      rw [ht2] at hmem
      constructor
      · intro _
        refine ⟨b, ?_, hble⟩
        unfold canvasToCompressedJpegBlob
        rw [hlad]
      · intro hall
        have := hall b (by
          unfold ladderAttempts
          rw [hlad]
          exact List.mem_append.2 (Or.inr hmem))
        omega
    | inr best2 =>
      have hlad : canvasLadder toBlob canvas = (t1 ++ t2, best2) := by
        unfold canvasLadder
        simp only [h1, h2]
      have hattempts : ladderAttempts toBlob canvas = t1 ++ t2 := by
        unfold ladderAttempts; rw [hlad]
      have hresult : canvasToCompressedJpegBlob toBlob canvas = best2 := by
        unfold canvasToCompressedJpegBlob; rw [hlad]
      constructor
      · intro hex
        rw [hattempts] at hex
        rcases hex with ⟨x, hx, hxle⟩
        rcases List.mem_append.1 hx with hx1 | hx2
        · obtain ⟨b, hb, _⟩ := tryQualityLadder_within toBlob
            (resizeCanvas canvas PRIMARY_MAX_WIDTH) [0.85, 0.72, 0.6] none
            ⟨x, by rw [ht1]; exact hx1, hxle⟩
          rw [ho1] at hb
          simp at hb
        · obtain ⟨b, hb, _⟩ := tryQualityLadder_within toBlob
            (resizeCanvas (resizeCanvas canvas PRIMARY_MAX_WIDTH) FALLBACK_MAX_WIDTH)
            [0.68, 0.56] best1 ⟨x, by rw [ht2]; exact hx2, hxle⟩
          rw [ho2] at hb
          simp at hb
      · intro hall
        rw [hattempts] at hall
        have hov1 := tryQualityLadder_over toBlob
          (resizeCanvas canvas PRIMARY_MAX_WIDTH) [0.85, 0.72, 0.6] none
          (fun x hx => hall x (List.mem_append.2 (Or.inl (by rw [ht1] at hx; exact hx))))
        rw [ho1, ht1] at hov1
        have hbest1 : best1 = t1.getLast?.or none := Sum.inr.inj hov1
        have hov2 := tryQualityLadder_over toBlob
          (resizeCanvas (resizeCanvas canvas PRIMARY_MAX_WIDTH) FALLBACK_MAX_WIDTH)
          [0.68, 0.56] best1
          (fun x hx => hall x (List.mem_append.2 (Or.inr (by rw [ht2] at hx; exact hx))))
        rw [ho2, ht2] at hov2
        have hbest2 : best2 = t2.getLast?.or best1 := Sum.inr.inj hov2
        rw [hresult, hattempts, hbest2, hbest1, getLast?_append_or]
        cases t2.getLast? <;> cases t1.getLast? <;> simp [Option.or]

/-- An encoder for the C1 witness: every candidate is within the byte
budget, so the first rung already satisfies it. -/
def c1WitnessOracle : BlobOracle := fun _ _ => some 7000000

/-- C1 (witness for the amended claim): an encoder whose primary-width
candidate at quality `0.72` is within budget makes the ladder return a
within-budget blob. -/
theorem C1_compression_ladder_witness :
    (∃ x ∈ ladderAttempts c1WitnessOracle c1Canvas, x ≤ MAX_UPLOAD_BYTES) ∧
    (∃ r, canvasToCompressedJpegBlob c1WitnessOracle c1Canvas = some r ∧
      r ≤ MAX_UPLOAD_BYTES) :=
  ⟨by decide, (C1_compression_ladder c1WitnessOracle c1Canvas).1 (by decide)⟩

/-- C7: a 429 with a 2.5-second retry hint (in the body's `retry_after`
or the `retry-after` header) yields a computed sleep of at least 2500 ms,
and every computed retry sleep — HTTP-status path or thrown-error
backoff — is at least 400 ms. -/
theorem C7_retry_delay :
    (∀ hdr : Option ℚ, 2500 ≤ httpRetrySleepMs 429 (some (5 / 2)) hdr) ∧
    (∀ status : ℕ, 2500 ≤ httpRetrySleepMs status none (some (5 / 2))) ∧
    (∀ (status : ℕ) (body hdr : Option ℚ), 400 ≤ httpRetrySleepMs status body hdr) ∧
    (∀ attempt : ℕ, 400 ≤ errorBackoffMs attempt) := by
  refine ⟨?_, ?_, ?_, ?_⟩
  · intro hdr
    unfold httpRetrySleepMs parseRetryAfterMs
    norm_num
  · intro status
    unfold httpRetrySleepMs parseRetryAfterMs headerRetryMs
    by_cases h : status = 429 <;> simp [h] <;> norm_num
  · intro status body hdr
    exact le_max_left _ _
  · intro attempt
    unfold errorBackoffMs
    have h : (1 : ℚ) ≤ 2 ^ (attempt - 1) := one_le_pow₀ (by norm_num)
    nlinarith

/-- C8: on every exit path of the tiled capture — returning a canvas or
throwing a classified error — the window scroll position equals the
position recorded at entry. -/
theorem C8_scroll_restored (vp : Viewport) (elem : ElemRect)
    (shots : ℕ → Bool) (ctxOk : Bool) (s0 : ℚ × ℚ) :
    (captureElementToCanvas vp elem shots ctxOk s0).2 = s0 := by
  unfold captureElementToCanvas
  by_cases hctx : ctxOk
  · rw [if_neg (by simp [hctx])]
  · rw [if_pos (by simp [hctx])]

/-- C10: when the normalized incoming id list is empty, `enqueue` returns
`null` and leaves the persisted state untouched. -/
theorem C10_enqueue_empty_noop (slipIds : List String) (reason : String)
    (reset : Bool) (σ : Store) (now : ℚ)
    (h : normalizeSlipIdList slipIds = []) :
    enqueuePendingCaptureQueue slipIds reason reset σ now = (none, σ) := by
  unfold enqueuePendingCaptureQueue
  rw [h]
  simp

/-- An empty store, used by concrete instantiations. -/
def emptyStore : Store :=
  { pendingCaptureQueue := none, pendingCapture := none,
    sentMap := [], lastSeenHeadSlipId := "" }

/-- C10 witness: a concrete call whose ids all normalize away. -/
theorem C10_enqueue_empty_noop_witness :
    normalizeSlipIdList ["", "   "] = [] ∧
    enqueuePendingCaptureQueue ["", "   "] "detect" false emptyStore 1000 =
      (none, emptyStore) :=
  ⟨by decide, C10_enqueue_empty_noop _ _ _ _ _ (by decide)⟩

/-! ### Enqueue merge-loop lemmas -/

theorem foldl_mergeStep_subset : ∀ (l : List String)
    (acc : List String × List (String × ℚ)), (∀ x ∈ l, x ∈ acc.1) →
    List.foldl enqueueMergeStep acc l = acc := by
  intro l
  induction l with
  | nil => intro acc _; rfl
  | cons x rest ih =>
    intro acc h
    rw [List.foldl_cons]
    unfold enqueueMergeStep
    rw [if_pos (h x (by simp))]
    exact ih acc (fun y hy => h y (List.mem_cons_of_mem _ hy))

theorem foldl_mergeStep_fresh : ∀ (l : List String)
    (acc : List String × List (String × ℚ)), (∀ x ∈ l, x ∉ acc.1) →
    l.Nodup → (List.foldl enqueueMergeStep acc l).1 = acc.1 ++ l := by
  intro l
  induction l with
  | nil => intro acc _ _; simp
  | cons x rest ih =>
    intro acc h hnd
    rw [List.foldl_cons]
    have hstep : enqueueMergeStep acc x =
        (acc.1 ++ [x], aListSet acc.2 x (aListGetD acc.2 x)) := by
      unfold enqueueMergeStep
      rw [if_neg (h x (by simp))]
    rw [hstep, ih _ (fun y hy => by
      simp only [List.mem_append, List.mem_singleton]
      push_neg
      exact ⟨h y (List.mem_cons_of_mem _ hy),
        fun hcontra => ((List.nodup_cons).1 hnd).1 (hcontra ▸ hy)⟩)
      ((List.nodup_cons).1 hnd).2]
    simp

/-- C2 (counterexample inputs): a live one-element queue created at
time 10, re-enqueued with the same id at time 20. -/
def c2Queue : QueuePayload :=
  { slipIds := ["AAAA-BBBB-CCCC-DDDD"], createdAt := 10, reason := ""
    attemptsBySlip := [("AAAA-BBBB-CCCC-DDDD", 0)]
    fingerprint := "AAAA-BBBB-CCCC-DDDD" }

/-- The store holding `c2Queue`. -/
def c2Store : Store := { emptyStore with pendingCaptureQueue := some c2Queue }

/-- The queue persisted by the C2 counterexample call: same ids and
attempts, but `createdAt` stamped with the call time 20. -/
def c2QueueAfter : QueuePayload :=
  { slipIds := ["AAAA-BBBB-CCCC-DDDD"], createdAt := 20, reason := "again"
    attemptsBySlip := [("AAAA-BBBB-CCCC-DDDD", 0)]
    fingerprint := "AAAA-BBBB-CCCC-DDDD" }

/-- C2 (counterexample): enqueueing a subset of the queued ids with
`reset = false` stamps `createdAt` with the call time (`Date.now()`), so
the stored `createdAt` changes from 10 to 20 even though the id sequence
and attempt counts are untouched. -/
theorem C2_counterexample :
    (enqueuePendingCaptureQueue ["AAAA-BBBB-CCCC-DDDD"] "again" false
        c2Store 20).2.pendingCaptureQueue = some c2QueueAfter ∧
    c2QueueAfter.slipIds = c2Queue.slipIds ∧
    c2QueueAfter.attemptsBySlip = c2Queue.attemptsBySlip ∧
    c2QueueAfter.createdAt = 20 ∧
    ¬ c2QueueAfter.createdAt = c2Queue.createdAt := by
  have hnorm : normalizePendingQueuePayload c2Queue 20 = some c2Queue := by decide
  have hfresh : isPendingCaptureFresh c2Queue.createdAt 20 = true := by
    unfold isPendingCaptureFresh PENDING_CAPTURE_TTL_MS c2Queue
    norm_num
  have hget : getFreshPendingCaptureQueue c2Store 20 = (some c2Queue, c2Store) := by
    unfold getFreshPendingCaptureQueue loadPendingCaptureQueue c2Store
    simp only [emptyStore, hnorm, hfresh]
    simp
  have hincoming : normalizeSlipIdList ["AAAA-BBBB-CCCC-DDDD"] =
      ["AAAA-BBBB-CCCC-DDDD"] := by decide
  have hstep : enqueueMergeStep (c2Queue.slipIds, c2Queue.attemptsBySlip)
      "AAAA-BBBB-CCCC-DDDD" = (c2Queue.slipIds, c2Queue.attemptsBySlip) := by
    decide
  have hnorm2 : normalizePendingQueuePayload
      { slipIds := c2Queue.slipIds, createdAt := 20,
        reason := normalizeText "again",
        attemptsBySlip := c2Queue.attemptsBySlip,
        fingerprint := buildPendingQueueFingerprint c2Queue.slipIds } 20 =
      some c2QueueAfter := by decide
  have hnorm3 : normalizePendingQueuePayload c2QueueAfter 20 =
      some c2QueueAfter := by decide
  refine ⟨?_, by decide, by decide, by decide, by
    unfold c2QueueAfter c2Queue
    norm_num⟩
  unfold enqueuePendingCaptureQueue
  rw [hincoming]
  rw [if_neg (by simp)]
  simp [hget, hstep, hnorm2, hnorm3, savePendingCaptureQueue]

/-- C2 (amended): with `reset = false` and a nonempty id list that
normalizes into ids already present in the live fresh queue, the enqueue
leaves the queue's id sequence (hence its length) and its per-id attempt
counters unchanged — but it refreshes `createdAt` to the call time
(`Date.now()`), contrary to the original claim. -/
theorem C2_enqueue_subset_idempotent (L : List String) (r : String)
    (σ : Store) (Q : QueuePayload) (now : ℚ)
    (hσ : σ.pendingCaptureQueue = some Q)
    (hQ : normalizePendingQueuePayload Q now = some Q)
    (hfresh : isPendingCaptureFresh Q.createdAt now = true)
    (hsub : ∀ s ∈ normalizeSlipIdList L, s ∈ Q.slipIds)
    (hne : normalizeSlipIdList L ≠ [])
    (hnow : 0 < now) :
    ∃ q, enqueuePendingCaptureQueue L r false σ now =
        (some q, { σ with pendingCaptureQueue := some q }) ∧
      q.slipIds = Q.slipIds ∧ q.attemptsBySlip = Q.attemptsBySlip ∧
      q.createdAt = now := by
  obtain ⟨hQne, hQeq⟩ := (normalize_some_iff Q now Q).1 hQ
  have hQslip : Q.slipIds = normalizeSlipIdList Q.slipIds := by
    conv_lhs => rw [hQeq]
  have hQatt : Q.attemptsBySlip = (normalizeSlipIdList Q.slipIds).map
      (fun s => (s, clampAttempt (aListGetD Q.attemptsBySlip s))) := by
    conv_lhs => rw [hQeq]
  have hget : getFreshPendingCaptureQueue σ now = (some Q, σ) := by
    unfold getFreshPendingCaptureQueue loadPendingCaptureQueue
    rw [hσ]
    simp [hQ, hfresh]
  have hfold : List.foldl enqueueMergeStep (Q.slipIds, Q.attemptsBySlip)
      (normalizeSlipIdList L) = (Q.slipIds, Q.attemptsBySlip) :=
    foldl_mergeStep_subset _ _ hsub
  set payload : QueuePayload :=
    { slipIds := Q.slipIds, createdAt := now, reason := normalizeText r,
      attemptsBySlip := Q.attemptsBySlip,
      fingerprint := buildPendingQueueFingerprint Q.slipIds } with hpayload
  have hpN : normalizeSlipIdList payload.slipIds ≠ [] := by
    rw [hpayload]
    simp only
    rw [← hQslip]
    intro hcontra
    rw [hQslip] at hcontra
    exact hQne hcontra
  obtain ⟨q, hq⟩ : ∃ q, normalizePendingQueuePayload payload now = some q := by
    unfold normalizePendingQueuePayload
    rw [if_neg hpN]
    exact ⟨_, rfl⟩
  obtain ⟨_, hqeq⟩ := (normalize_some_iff payload now q).1 hq
  have hqslip : q.slipIds = Q.slipIds := by
    rw [hqeq]
    simp only [hpayload]
    exact hQslip.symm
  have hqatt : q.attemptsBySlip = Q.attemptsBySlip := by
    rw [hqeq]
    simp only [hpayload]
    exact hQatt.symm
  have hqcreated : q.createdAt = now := by
    rw [hqeq]
    simp only [hpayload]
    by_cases hc : 0 < now
    · rw [if_pos hc]
    · rw [if_neg hc]
  have hsave : savePendingCaptureQueue q σ now =
      { σ with pendingCaptureQueue := some q } := by
    unfold savePendingCaptureQueue
    rw [normalizePendingQueuePayload_idem payload now q hnow hq now]
  refine ⟨q, ?_, hqslip, hqatt, hqcreated⟩
  unfold enqueuePendingCaptureQueue
  rw [if_neg hne]
  simp only [hget]
  simp [hfold]
  rw [← hpayload, hq]
  simp [hsave]

/-- C2 (witness for the amended claim): the concrete `c2Store` setting. -/
theorem C2_enqueue_subset_idempotent_witness :
    ∃ q, enqueuePendingCaptureQueue ["AAAA-BBBB-CCCC-DDDD"] "again" false
        c2Store 20 = (some q, { c2Store with pendingCaptureQueue := some q }) ∧
      q.slipIds = c2Queue.slipIds ∧ q.attemptsBySlip = c2Queue.attemptsBySlip ∧
      q.createdAt = 20 :=
  C2_enqueue_subset_idempotent ["AAAA-BBBB-CCCC-DDDD"] "again" c2Store c2Queue 20
    rfl (by decide)
    (by unfold isPendingCaptureFresh PENDING_CAPTURE_TTL_MS c2Queue; norm_num)
    (by decide) (by decide) (by norm_num)

/-! ### C9: dedup / first-occurrence order of the stored id list -/

/-- Following the spec's words: the stored id set is "deduplicated and
preserves first-occurrence order" — keep the first occurrence of each
item, in order. -/
def specDedupFirstOccurrence (xs : List String) : List String :=
  xs.foldl (fun acc x => if x ∈ acc then acc else acc ++ [x]) []

theorem normalizeSlipIdGo_spec : ∀ (l : List String) (acc : List String),
    normalizeSlipIdGo l acc =
      List.foldl (fun acc x => if x ∈ acc then acc else acc ++ [x]) acc
        ((l.map slipOf).filter (fun x => x ≠ "")) := by
  intro l
  induction l with
  | nil => intro acc; rfl
  | cons raw rest ih =>
    intro acc
    unfold normalizeSlipIdGo
    by_cases hempty : slipOf raw = ""
    · rw [if_pos (Or.inl hempty)]
      rw [ih acc]
      congr 1
      simp [hempty]
    · have hfilter : ((raw :: rest).map slipOf).filter (fun x => x ≠ "") =
          slipOf raw :: ((rest.map slipOf).filter (fun x => x ≠ "")) := by
        simp [hempty]
      rw [hfilter, List.foldl_cons]
      by_cases hmem : slipOf raw ∈ acc
      · rw [if_pos (Or.inr hmem), ih acc, if_pos hmem]
      · rw [if_neg (by push_neg; exact ⟨hempty, hmem⟩), ih (acc ++ [slipOf raw]),
          if_neg hmem]

/-- Each normalized id is a canonical token, or the raw text normalized
(when no canonical token occurs in it). -/
theorem slipOf_cases (raw : String) :
    TokenShape (slipOf raw).data ∨
      (slipOf raw = normalizeText raw ∧ extractSlipId (slipOf raw) = "") := by
  by_cases h : extractSlipId (normalizeText raw) = ""
  · right
    have h1 : slipOf raw = normalizeText raw := by simp [slipOf, h]
    refine ⟨h1, ?_⟩
    rw [h1]
    exact h
  · left
    have h1 : slipOf raw = extractSlipId (normalizeText raw) := by simp [slipOf, h]
    rw [h1]
    rcases extractSlipId_empty_or_token (normalizeText raw) with h' | h'
    · exact absurd h' h
    · exact h'

/-- The queue stored by the C9 counterexample call: the raw text carries
no canonical token, so the fallback keeps it verbatim. -/
def c9Queue : QueuePayload :=
  { slipIds := ["hello world"], createdAt := 1000, reason := "r"
    attemptsBySlip := [("hello world", 0)]
    fingerprint := "hello world" }

/-- C9 (counterexample): with input `["hello world"]`, the stored queue's
single element is `"hello world"`, which is not in canonical
slip-identifier form (it contains no 4×4 token at all:
`extractSlipId` returns `""` on it). -/
theorem C9_counterexample :
    (enqueuePendingCaptureQueue ["hello world"] "r" true emptyStore 1000).1 =
      some c9Queue ∧
    c9Queue.slipIds = ["hello world"] ∧
    extractSlipId "hello world" = "" ∧ ¬ ("hello world" = "") := by
  refine ⟨?_, ?_, ?_, ?_⟩ <;> decide

/-- C9 (amended): a wholesale (`reset = true`) enqueue stores exactly the
deduplicated, first-occurrence-ordered sequence of per-item normalized
ids, with no duplicates; each stored element is either a canonical
4×4 slip token (the first one occurring in the item's normalized text)
or — when the item contains no canonical token — the whitespace-normalized
raw text itself. -/
theorem C9_enqueue_ids (slipIds : List String) (reason : String) (σ : Store)
    (now : ℚ) (hne : normalizeSlipIdList slipIds ≠ []) (hnow : 0 < now) :
    ∃ q, enqueuePendingCaptureQueue slipIds reason true σ now =
        (some q, { σ with pendingCaptureQueue := some q }) ∧
      q.slipIds = specDedupFirstOccurrence
        ((slipIds.map slipOf).filter (fun x => x ≠ "")) ∧
      q.slipIds.Nodup ∧
      ∀ e ∈ q.slipIds, TokenShape e.data ∨
        (extractSlipId e = "" ∧ ∃ raw ∈ slipIds, e = normalizeText raw) := by
  set F := List.foldl enqueueMergeStep ([], [])
    (normalizeSlipIdList slipIds) with hF
  have hF1 : F.1 = normalizeSlipIdList slipIds := by
    rw [hF, foldl_mergeStep_fresh _ _ (by simp) (normalizeSlipIdList_nodup _)]
    simp
  set payload : QueuePayload :=
    { slipIds := F.1, createdAt := now, reason := normalizeText reason,
      attemptsBySlip := F.2,
      fingerprint := buildPendingQueueFingerprint F.1 } with hpayload
  have hpN : normalizeSlipIdList payload.slipIds ≠ [] := by
    rw [hpayload]
    simp only [hF1]
    rw [normalizeSlipIdList_idem]
    exact hne
  obtain ⟨q, hq⟩ : ∃ q, normalizePendingQueuePayload payload now = some q := by
    unfold normalizePendingQueuePayload
    rw [if_neg hpN]
    exact ⟨_, rfl⟩
  obtain ⟨_, hqeq⟩ := (normalize_some_iff payload now q).1 hq
  have hqslip : q.slipIds = normalizeSlipIdList slipIds := by
    rw [hqeq]
    simp only [hpayload, hF1]
    exact normalizeSlipIdList_idem slipIds
  have hsave : savePendingCaptureQueue q σ now =
      { σ with pendingCaptureQueue := some q } := by
    unfold savePendingCaptureQueue
    rw [normalizePendingQueuePayload_idem payload now q hnow hq now]
  refine ⟨q, ?_, ?_, ?_, ?_⟩
  · unfold enqueuePendingCaptureQueue
    rw [if_neg hne]
    show (match normalizePendingQueuePayload payload now with
      | none => ((none : Option QueuePayload), σ)
      | some q' => (some q', savePendingCaptureQueue q' σ now)) =
      (some q, { σ with pendingCaptureQueue := some q })
    rw [hq]
    simp [hsave]
  · rw [hqslip]
    unfold normalizeSlipIdList specDedupFirstOccurrence
    exact normalizeSlipIdGo_spec slipIds []
  · rw [hqslip]; exact normalizeSlipIdList_nodup slipIds
  · intro e he
    rw [hqslip] at he
    obtain ⟨hne', raw, hraw, heq⟩ := normalizeSlipIdList_mem slipIds e he
    rcases slipOf_cases raw with h | ⟨h1, h2⟩
    · left
      rw [heq]
      exact h
    · right
      refine ⟨?_, raw, hraw, heq.trans h1⟩
      rw [heq]
      exact h2

/-- C9 (witness): a three-item input with a duplicate and an embedded
token stores two ids in first-occurrence order. -/
theorem C9_enqueue_ids_witness :
    ∃ q, enqueuePendingCaptureQueue
        ["AAAA-BBBB-CCCC-DDDD", "x AAAA-BBBB-CCCC-DDDD y", "hello world"]
        "r" true emptyStore 1000 =
        (some q, { emptyStore with pendingCaptureQueue := some q }) ∧
      q.slipIds = specDedupFirstOccurrence
        ((["AAAA-BBBB-CCCC-DDDD", "x AAAA-BBBB-CCCC-DDDD y",
           "hello world"].map slipOf).filter (fun x => x ≠ "")) ∧
      q.slipIds.Nodup ∧
      ∀ e ∈ q.slipIds, TokenShape e.data ∨
        (extractSlipId e = "" ∧
          ∃ raw ∈ ["AAAA-BBBB-CCCC-DDDD", "x AAAA-BBBB-CCCC-DDDD y",
            "hello world"], e = normalizeText raw) :=
  C9_enqueue_ids _ "r" emptyStore 1000 (by decide) (by decide)

/-! ### C3: the fingerprint field vs the join of `slipIds` -/

/-- Normalizing a payload whose fingerprint field is the freshly built
fingerprint of its own ids yields `fingerprint = joinBar slipIds`. -/
theorem normalize_build_fingerprint (p : QueuePayload) (now : ℚ)
    (q : QueuePayload)
    (hfp : p.fingerprint = buildPendingQueueFingerprint p.slipIds)
    (hq : normalizePendingQueuePayload p now = some q) :
    q.fingerprint = joinBar q.slipIds := by
  obtain ⟨hne, hqeq⟩ := (normalize_some_iff p now q).1 hq
  have hslip : q.slipIds = normalizeSlipIdList p.slipIds := by rw [hqeq]
  have hnorm : normalizeText p.fingerprint =
      buildPendingQueueFingerprint p.slipIds := by
    rw [hfp]
    exact normalizeText_build_fingerprint p.slipIds
  have hbne : buildPendingQueueFingerprint p.slipIds ≠ "" :=
    build_fingerprint_ne_empty p.slipIds hne
  have hfpq : q.fingerprint = buildPendingQueueFingerprint p.slipIds := by
    rw [hqeq]
    simp only
    rw [hnorm, if_neg hbne]
  rw [hfpq, hslip]
  rfl

/-- Normalizing a payload whose fingerprint normalizes to the empty
string recomputes it as the join of the ids. -/
theorem normalize_empty_fingerprint (p : QueuePayload) (now : ℚ)
    (q : QueuePayload) (hfp : normalizeText p.fingerprint = "")
    (hq : normalizePendingQueuePayload p now = some q) :
    q.fingerprint = joinBar q.slipIds := by
  obtain ⟨_, hqeq⟩ := (normalize_some_iff p now q).1 hq
  have hslip : q.slipIds = normalizeSlipIdList p.slipIds := by rw [hqeq]
  have hfpq : q.fingerprint =
      buildPendingQueueFingerprint (normalizeSlipIdList p.slipIds) := by
    rw [hqeq]
    simp only
    rw [hfp, if_pos rfl]
  rw [hfpq, hslip]
  unfold buildPendingQueueFingerprint
  rw [normalizeSlipIdList_idem]

/-- The stored queue (if any) has `fingerprint = joinBar slipIds`. -/
def QueueFpOk (σ : Store) : Prop :=
  ∀ q, σ.pendingCaptureQueue = some q → q.fingerprint = joinBar q.slipIds

theorem queueFpOk_save (p : QueuePayload) (σ : Store) (now : ℚ)
    (hfp : p.fingerprint = buildPendingQueueFingerprint p.slipIds) :
    QueueFpOk (savePendingCaptureQueue p σ now) := by
  intro q hq
  unfold savePendingCaptureQueue at hq
  cases hnorm : normalizePendingQueuePayload p now with
  | none => rw [hnorm] at hq; simp at hq
  | some q0 =>
    rw [hnorm] at hq
    simp only [Option.some.injEq] at hq
    exact hq ▸ normalize_build_fingerprint p now q0 hfp hnorm

theorem queueFpOk_clear (σ : Store) : QueueFpOk (clearPendingCaptureQueue σ) := by
  intro q hq
  simp [clearPendingCaptureQueue] at hq

theorem queueFpOk_lastSeen (σ : Store) (s : String) (h : QueueFpOk σ) :
    QueueFpOk { σ with lastSeenHeadSlipId := s } := by
  intro q hq
  exact h q hq

theorem resumeLoop_cons_success (oracle : ℕ → CaptureOutcome)
    (reason : String) (now : ℚ) (k : ℕ) (target sid : String)
    (rest : List String) (attempts : List (String × ℚ)) (qReason : String)
    (σ : Store) (ho : oracle k = CaptureOutcome.success sid) :
    resumeLoop oracle reason now k (target :: rest) attempts qReason σ =
      resumeLoop oracle reason now (k + 1) rest (aListErase attempts target)
        (resumeReason reason qReason)
        (resumePopStore rest (aListErase attempts target)
          (resumeReason reason qReason) now
          { σ with lastSeenHeadSlipId :=
              normalizeText (if sid = "" then target else sid) }) := by
  conv_lhs => unfold resumeLoop
  rw [ho]

theorem resumeLoop_cons_thrown_retry (oracle : ℕ → CaptureOutcome)
    (reason : String) (now : ℚ) (k : ℕ) (target code : String)
    (rest : List String) (attempts : List (String × ℚ)) (qReason : String)
    (σ : Store) (ho : oracle k = CaptureOutcome.thrown code)
    (hc : isRetriablePendingQueueCode (getErrorCode code) = true ∧
      aListGetD attempts target + 1 < MAX_PENDING_RETRIES) :
    resumeLoop oracle reason now k (target :: rest) attempts qReason σ =
      (resumeRetryStore (target :: rest)
        (aListSet attempts target (aListGetD attempts target + 1))
        (resumeReason reason qReason) now σ, true) := by
  conv_lhs => unfold resumeLoop
  rw [ho]
  simp only [if_pos hc]

theorem resumeLoop_cons_thrown_drop (oracle : ℕ → CaptureOutcome)
    (reason : String) (now : ℚ) (k : ℕ) (target code : String)
    (rest : List String) (attempts : List (String × ℚ)) (qReason : String)
    (σ : Store) (ho : oracle k = CaptureOutcome.thrown code)
    (hc : ¬ (isRetriablePendingQueueCode (getErrorCode code) = true ∧
      aListGetD attempts target + 1 < MAX_PENDING_RETRIES)) :
    resumeLoop oracle reason now k (target :: rest) attempts qReason σ =
      resumeLoop oracle reason now (k + 1) rest (aListErase attempts target)
        (resumeReason reason qReason)
        { resumePopStore rest (aListErase attempts target)
            (resumeReason reason qReason) now σ with
          lastSeenHeadSlipId := normalizeText target } := by
  conv_lhs => unfold resumeLoop
  rw [ho]
  simp only [if_neg hc]

theorem resumeLoop_cons_notOk (oracle : ℕ → CaptureOutcome)
    (reason : String) (now : ℚ) (k : ℕ) (target : String)
    (rest : List String) (attempts : List (String × ℚ)) (qReason : String)
    (σ : Store) (ho : oracle k = CaptureOutcome.notOk)
    (hc : ¬ (isRetriablePendingQueueCode (getErrorCode "webhook_send_failed") = true ∧
      aListGetD attempts target + 1 < MAX_PENDING_RETRIES)) :
    resumeLoop oracle reason now k (target :: rest) attempts qReason σ =
      resumeLoop oracle reason now (k + 1) rest (aListErase attempts target)
        (resumeReason reason qReason)
        { resumePopStore rest (aListErase attempts target)
            (resumeReason reason qReason) now σ with
          lastSeenHeadSlipId := normalizeText target } := by
  conv_lhs => unfold resumeLoop
  rw [ho]
  simp only [if_neg hc]

theorem queueFpOk_resumePopStore (rest : List String)
    (attempts' : List (String × ℚ)) (nr : String) (now : ℚ) (σ : Store) :
    QueueFpOk (resumePopStore rest attempts' nr now σ) := by
  unfold resumePopStore
  by_cases hrest : rest = []
  · rw [if_pos hrest]
    exact queueFpOk_clear _
  · rw [if_neg hrest]
    exact queueFpOk_save _ _ _ rfl

/-- The draining loop only ever persists queues whose fingerprint is the
freshly rebuilt join of the remaining ids. -/
theorem resumeLoop_queueFpOk (oracle : ℕ → CaptureOutcome) (reason : String)
    (now : ℚ) : ∀ (ids : List String) (k : ℕ)
    (attempts : List (String × ℚ)) (qReason : String) (σ : Store),
    QueueFpOk σ →
    QueueFpOk (resumeLoop oracle reason now k ids attempts qReason σ).1 := by
  intro ids
  induction ids with
  | nil => intro k attempts qReason σ h; exact h
  | cons target rest ih =>
    intro k attempts qReason σ h
    cases ho : oracle k with
    | success sid =>
      rw [resumeLoop_cons_success oracle reason now k target sid rest attempts
        qReason σ ho]
      exact ih _ _ _ _ (queueFpOk_resumePopStore _ _ _ _ _)
    | notOk =>
      by_cases hc : isRetriablePendingQueueCode
          (getErrorCode "webhook_send_failed") = true ∧
          aListGetD attempts target + 1 < MAX_PENDING_RETRIES
      · exact absurd hc.1 (by decide)
      · rw [resumeLoop_cons_notOk oracle reason now k target rest attempts
          qReason σ ho hc]
        exact ih _ _ _ _
          (queueFpOk_lastSeen _ _ (queueFpOk_resumePopStore _ _ _ _ _))
    | thrown code =>
      by_cases hc : isRetriablePendingQueueCode (getErrorCode code) = true ∧
          aListGetD attempts target + 1 < MAX_PENDING_RETRIES
      · rw [resumeLoop_cons_thrown_retry oracle reason now k target code rest
          attempts qReason σ ho hc]
        exact queueFpOk_save _ _ _ rfl
      · rw [resumeLoop_cons_thrown_drop oracle reason now k target code rest
          attempts qReason σ ho hc]
        exact ih _ _ _ _
          (queueFpOk_lastSeen _ _ (queueFpOk_resumePopStore _ _ _ _ _))

/-- The raw stored queue for the C3 counterexample: its fingerprint field
holds `"bogus"`, not the join of its ids. -/
def c3Raw : QueuePayload :=
  { slipIds := ["AAAA-AAAA-AAAA-AAAA"], createdAt := 5, reason := ""
    attemptsBySlip := [], fingerprint := "bogus" }

/-- The store holding `c3Raw`. -/
def c3Store : Store := { emptyStore with pendingCaptureQueue := some c3Raw }

/-- The queue value `loadPendingCaptureQueue` returns for `c3Store`. -/
def c3Loaded : QueuePayload :=
  { slipIds := ["AAAA-AAAA-AAAA-AAAA"], createdAt := 5, reason := ""
    attemptsBySlip := [("AAAA-AAAA-AAAA-AAAA", 0)], fingerprint := "bogus" }

/-- C3 (counterexample): a load returns the stored nonempty fingerprint
verbatim, so the loaded queue's fingerprint (`"bogus"`) differs from the
join of its `slipIds`. -/
theorem C3_counterexample :
    (loadPendingCaptureQueue c3Store 7).1 = some c3Loaded ∧
    ¬ c3Loaded.fingerprint = joinBar c3Loaded.slipIds ∧
    ¬ c3Loaded.fingerprint =
      buildPendingQueueFingerprint c3Loaded.slipIds := by
  refine ⟨?_, ?_, ?_⟩ <;> decide

/-- C3 (amended): queues produced by `enqueue`, and every queue the
draining loop persists (advance pops and retry persists), carry
`fingerprint = joinBar slipIds`; a load recomputes the fingerprint as the
join only when the stored fingerprint normalizes to the empty string
(otherwise it returns the stored fingerprint verbatim); and the built
fingerprint is a pure function of the normalized id sequence. -/
theorem C3_fingerprint_invariant :
    (∀ (slipIds : List String) (reason : String) (reset : Bool) (σ : Store)
        (now : ℚ) (q : QueuePayload) (σ' : Store),
      enqueuePendingCaptureQueue slipIds reason reset σ now = (some q, σ') →
      q.fingerprint = joinBar q.slipIds) ∧
    (∀ (oracle : ℕ → CaptureOutcome) (reason : String) (now : ℚ) (k : ℕ)
        (ids : List String) (attempts : List (String × ℚ)) (qReason : String)
        (σ : Store), QueueFpOk σ →
      QueueFpOk (resumeLoop oracle reason now k ids attempts qReason σ).1) ∧
    (∀ (σ : Store) (now : ℚ) (raw : QueuePayload),
      σ.pendingCaptureQueue = some raw → normalizeText raw.fingerprint = "" →
      normalizeSlipIdList raw.slipIds ≠ [] →
      ∃ q, (loadPendingCaptureQueue σ now).1 = some q ∧
        q.fingerprint = joinBar q.slipIds) ∧
    (∀ xs ys : List String, normalizeSlipIdList xs = normalizeSlipIdList ys →
      buildPendingQueueFingerprint xs = buildPendingQueueFingerprint ys) := by
  refine ⟨?_, ?_, ?_, ?_⟩
  · intro slipIds reason reset σ now q σ' h
    unfold enqueuePendingCaptureQueue at h
    by_cases hin : normalizeSlipIdList slipIds = []
    · rw [if_pos hin] at h
      simp at h
    · rw [if_neg hin] at h
      cases reset with
      | true =>
        have h' : (match normalizePendingQueuePayload
            { slipIds := (List.foldl enqueueMergeStep ([], [])
                (normalizeSlipIdList slipIds)).1,
              createdAt := now, reason := normalizeText reason,
              attemptsBySlip := (List.foldl enqueueMergeStep ([], [])
                (normalizeSlipIdList slipIds)).2,
              fingerprint := buildPendingQueueFingerprint
                (List.foldl enqueueMergeStep ([], [])
                  (normalizeSlipIdList slipIds)).1 } now with
          | none => ((none : Option QueuePayload), σ)
          | some q0 => (some q0, savePendingCaptureQueue q0 σ now)) =
            (some q, σ') := h
        cases hnq : normalizePendingQueuePayload
            { slipIds := (List.foldl enqueueMergeStep ([], [])
                (normalizeSlipIdList slipIds)).1,
              createdAt := now, reason := normalizeText reason,
              attemptsBySlip := (List.foldl enqueueMergeStep ([], [])
                (normalizeSlipIdList slipIds)).2,
              fingerprint := buildPendingQueueFingerprint
                (List.foldl enqueueMergeStep ([], [])
                  (normalizeSlipIdList slipIds)).1 } now with
        | none => rw [hnq] at h'; simp at h'
        | some q0 =>
          rw [hnq] at h'
          simp only [Prod.mk.injEq, Option.some.injEq] at h'
          exact h'.1 ▸ normalize_build_fingerprint _ now q0 rfl hnq
      | false =>
        rcases hget : getFreshPendingCaptureQueue σ now with ⟨cur, σ1⟩
        rw [hget] at h
        cases cur with
        | some Q =>
          have h' : (match normalizePendingQueuePayload
              { slipIds := (List.foldl enqueueMergeStep
                  (Q.slipIds, Q.attemptsBySlip) (normalizeSlipIdList slipIds)).1,
                createdAt := now, reason := normalizeText reason,
                attemptsBySlip := (List.foldl enqueueMergeStep
                  (Q.slipIds, Q.attemptsBySlip) (normalizeSlipIdList slipIds)).2,
                fingerprint := buildPendingQueueFingerprint
                  (List.foldl enqueueMergeStep (Q.slipIds, Q.attemptsBySlip)
                    (normalizeSlipIdList slipIds)).1 } now with
            | none => ((none : Option QueuePayload), σ1)
            | some q0 => (some q0, savePendingCaptureQueue q0 σ1 now)) =
              (some q, σ') := h
          cases hnq : normalizePendingQueuePayload
              { slipIds := (List.foldl enqueueMergeStep
                  (Q.slipIds, Q.attemptsBySlip) (normalizeSlipIdList slipIds)).1,
                createdAt := now, reason := normalizeText reason,
                attemptsBySlip := (List.foldl enqueueMergeStep
                  (Q.slipIds, Q.attemptsBySlip) (normalizeSlipIdList slipIds)).2,
                fingerprint := buildPendingQueueFingerprint
                  (List.foldl enqueueMergeStep (Q.slipIds, Q.attemptsBySlip)
                    (normalizeSlipIdList slipIds)).1 } now with
          | none => rw [hnq] at h'; simp at h'
          | some q0 =>
            rw [hnq] at h'
            simp only [Prod.mk.injEq, Option.some.injEq] at h'
            exact h'.1 ▸ normalize_build_fingerprint _ now q0 rfl hnq
        | none =>
          have h' : (match normalizePendingQueuePayload
              { slipIds := (List.foldl enqueueMergeStep ([], [])
                  (normalizeSlipIdList slipIds)).1,
                createdAt := now, reason := normalizeText reason,
                attemptsBySlip := (List.foldl enqueueMergeStep ([], [])
                  (normalizeSlipIdList slipIds)).2,
                fingerprint := buildPendingQueueFingerprint
                  (List.foldl enqueueMergeStep ([], [])
                    (normalizeSlipIdList slipIds)).1 } now with
            | none => ((none : Option QueuePayload), σ1)
            | some q0 => (some q0, savePendingCaptureQueue q0 σ1 now)) =
              (some q, σ') := h
          cases hnq : normalizePendingQueuePayload
              { slipIds := (List.foldl enqueueMergeStep ([], [])
                  (normalizeSlipIdList slipIds)).1,
                createdAt := now, reason := normalizeText reason,
                attemptsBySlip := (List.foldl enqueueMergeStep ([], [])
                  (normalizeSlipIdList slipIds)).2,
                fingerprint := buildPendingQueueFingerprint
                  (List.foldl enqueueMergeStep ([], [])
                    (normalizeSlipIdList slipIds)).1 } now with
          | none => rw [hnq] at h'; simp at h'
          | some q0 =>
            rw [hnq] at h'
            simp only [Prod.mk.injEq, Option.some.injEq] at h'
            exact h'.1 ▸ normalize_build_fingerprint _ now q0 rfl hnq
  · intro oracle reason now k ids attempts qReason σ h
    exact resumeLoop_queueFpOk oracle reason now ids k attempts qReason σ h
  · intro σ now raw hσ hfp hne
    obtain ⟨q, hq⟩ : ∃ q, normalizePendingQueuePayload raw now = some q := by
      unfold normalizePendingQueuePayload
      rw [if_neg hne]
      exact ⟨_, rfl⟩
    refine ⟨q, ?_, normalize_empty_fingerprint raw now q hfp hq⟩
    unfold loadPendingCaptureQueue
    rw [hσ]
    simp [hq]
  · intro xs ys h
    unfold buildPendingQueueFingerprint
    rw [h]

/-- A stored queue whose fingerprint field is empty. -/
def c3EmptyFpRaw : QueuePayload :=
  { slipIds := ["AAAA-AAAA-AAAA-AAAA"], createdAt := 5, reason := ""
    attemptsBySlip := [], fingerprint := "" }

/-- The store holding `c3EmptyFpRaw`. -/
def c3EmptyFpStore : Store :=
  { emptyStore with pendingCaptureQueue := some c3EmptyFpRaw }

/-- C3 (witness for the amended claim): concrete instantiations of all
four parts. -/
theorem C3_fingerprint_invariant_witness :
    (c9Queue.fingerprint = joinBar c9Queue.slipIds) ∧
    QueueFpOk (resumeLoop (fun _ => CaptureOutcome.notOk) "r" 5 0 [] [] ""
      emptyStore).1 ∧
    (∃ q, (loadPendingCaptureQueue c3EmptyFpStore 7).1 = some q ∧
      q.fingerprint = joinBar q.slipIds) ∧
    buildPendingQueueFingerprint ["a"] =
      buildPendingQueueFingerprint ["a", "a"] := by
  refine ⟨?_, ?_, ?_, ?_⟩
  · exact C3_fingerprint_invariant.1 ["hello world"] "r" true emptyStore 1000
      c9Queue { emptyStore with pendingCaptureQueue := some c9Queue }
      (by decide)
  · exact C3_fingerprint_invariant.2.1 (fun _ => CaptureOutcome.notOk) "r" 5 0
      [] [] "" emptyStore (fun q hq => by simp [emptyStore] at hq)
  · exact C3_fingerprint_invariant.2.2.1 _ 7 _ rfl (by decide) (by decide)
  · exact C3_fingerprint_invariant.2.2.2 ["a"] ["a", "a"] (by decide)

/-! ### C6: the sent-map TTL -/

theorem mem_aListSet (m : List (String × ℚ)) (k : String) (v : ℚ) :
    ∀ e ∈ aListSet m k v, e = (k, v) ∨ e ∈ m := by
  intro e he
  unfold aListSet at he
  by_cases hf : (m.find? (fun e => e.1 = k)).isSome
  · rw [if_pos hf] at he
    obtain ⟨e0, he0, heq⟩ := List.mem_map.1 he
    by_cases hk : e0.1 = k
    · rw [if_pos hk] at heq
      exact Or.inl heq.symm
    · rw [if_neg hk] at heq
      exact Or.inr (heq ▸ he0)
  · rw [if_neg hf] at he
    rcases List.mem_append.1 he with h | h
    · exact Or.inr h
    · exact Or.inl (List.mem_singleton.1 h)

theorem find?_eq_none_keys (m : List (String × ℚ)) (k : String)
    (h : m.find? (fun e => e.1 = k) = none) : ∀ e ∈ m, ¬ e.1 = k := by
  intro e he
  have := List.find?_eq_none.1 h e he
  simpa using this

theorem aListFind_cons_eq (e : String × ℚ) (rest : List (String × ℚ))
    (k : String) (h : e.1 = k) : aListFind (e :: rest) k = some e.2 := by
  unfold aListFind
  rw [List.find?_cons]
  simp [h]

theorem aListFind_cons_ne (e : String × ℚ) (rest : List (String × ℚ))
    (k : String) (h : ¬ e.1 = k) : aListFind (e :: rest) k = aListFind rest k := by
  unfold aListFind
  rw [List.find?_cons]
  simp [h]

theorem aListFind_filter_none (p : String × ℚ → Bool)
    (m : List (String × ℚ)) (k : String)
    (hk : ∀ e ∈ m, e.1 = k → ¬ p e = true) :
    aListFind (m.filter p) k = none := by
  induction m with
  | nil => rfl
  | cons e rest ih =>
    have hrest := ih (fun e' he' => hk e' (List.mem_cons_of_mem _ he'))
    rw [List.filter_cons]
    by_cases hp : p e = true
    · rw [if_pos hp]
      rw [aListFind_cons_ne e _ k (fun hc => hk e (by simp) hc hp)]
      exact hrest
    · rw [if_neg hp]
      exact hrest

theorem aListFind_map_set_filter_dropped (p : String × ℚ → Bool) (k : String)
    (v : ℚ) (hp : ¬ p (k, v) = true) : ∀ (m : List (String × ℚ)),
    aListFind ((m.map (fun e => if e.1 = k then (k, v) else e)).filter p) k =
      none := by
  intro m
  induction m with
  | nil => rfl
  | cons e rest ih =>
    simp only [List.map_cons]
    by_cases hk : e.1 = k
    · rw [if_pos hk, List.filter_cons, if_neg hp]
      exact ih
    · rw [if_neg hk, List.filter_cons]
      by_cases hpe : p e = true
      · rw [if_pos hpe, aListFind_cons_ne e _ k hk]
        exact ih
      · rw [if_neg hpe]
        exact ih

theorem aListFind_map_set_filter_kept (p : String × ℚ → Bool) (k : String)
    (v : ℚ) (hp : p (k, v) = true) : ∀ (m : List (String × ℚ)),
    (∃ e ∈ m, e.1 = k) →
    aListFind ((m.map (fun e => if e.1 = k then (k, v) else e)).filter p) k =
      some v := by
  intro m
  induction m with
  | nil => intro h; simp at h
  | cons e rest ih =>
    intro hex
    simp only [List.map_cons]
    by_cases hk : e.1 = k
    · rw [if_pos hk, List.filter_cons, if_pos hp]
      rw [aListFind_cons_eq (k, v) _ k rfl]
    · rw [if_neg hk]
      have hex' : ∃ e' ∈ rest, e'.1 = k := by
        obtain ⟨e', he', hk'⟩ := hex
        rcases List.mem_cons.1 he' with rfl | h
        · exact absurd hk' hk
        · exact ⟨e', h, hk'⟩
      rw [List.filter_cons]
      by_cases hpe : p e = true
      · rw [if_pos hpe, aListFind_cons_ne e _ k hk]
        exact ih hex'
      · rw [if_neg hpe]
        exact ih hex'

/-- After `aListSet m k v`, looking up `k` through any filter gives `v`
when the filter keeps `(k, v)`, and nothing otherwise. -/
theorem aListFind_set_filter (p : String × ℚ → Bool)
    (m : List (String × ℚ)) (k : String) (v : ℚ) :
    aListFind ((aListSet m k v).filter p) k =
      (if p (k, v) = true then some v else none) := by
  unfold aListSet
  by_cases hf : (m.find? (fun e => e.1 = k)).isSome
  · rw [if_pos hf]
    by_cases hp : p (k, v) = true
    · rw [if_pos hp]
      refine aListFind_map_set_filter_kept p k v hp m ?_
      rw [Option.isSome_iff_exists] at hf
      obtain ⟨e, he⟩ := hf
      have hmem := List.mem_of_find?_eq_some he
      have hkey := List.find?_some he
      exact ⟨e, hmem, by simpa using hkey⟩
    · rw [if_neg hp]
      exact aListFind_map_set_filter_dropped p k v hp m
  · rw [if_neg hf]
    rw [List.filter_append]
    have hnone : aListFind (m.filter p) k = none :=
      aListFind_filter_none p m k (fun e he hk _ =>
        find?_eq_none_keys m k (by
          revert hf
          cases m.find? (fun e => e.1 = k) <;> simp) e he hk)
    have hfind : List.find? (fun e => decide (e.1 = k)) (m.filter p) = none := by
      revert hnone
      unfold aListFind
      cases List.find? (fun e => decide (e.1 = k)) (m.filter p) <;> simp
    by_cases hp : p (k, v) = true
    · rw [if_pos hp]
      unfold aListFind
      rw [List.find?_append, hfind]
      simp [hp]
    · rw [if_neg hp]
      unfold aListFind
      rw [List.find?_append, hfind]
      simp [hp]

theorem aListFind_set_self (m : List (String × ℚ)) (k : String) (v : ℚ) :
    aListFind (aListSet m k v) k = some v := by
  have h := aListFind_set_filter (fun _ => true) m k v
  simpa using h

theorem aListGetD_set_self (m : List (String × ℚ)) (k : String) (v : ℚ) :
    aListGetD (aListSet m k v) k = v := by
  unfold aListGetD
  rw [aListFind_set_self]
  rfl

theorem markSent_sentMap (key : String) (σ : Store) (T : ℚ) :
    (markSent key σ T).sentMap = aListSet (pruneSentMap σ.sentMap T) key T := rfl

theorem isDuplicate_fst (key : String) (σ : Store) (now : ℚ) :
    (isDuplicate key σ now).1 =
      (match aListFind (pruneSentMap σ.sentMap now) key with
       | some t => decide (t ≠ 0)
       | none => false) := rfl

theorem isDuplicate_sentMap (key : String) (σ : Store) (now : ℚ) :
    (isDuplicate key σ now).2.sentMap = pruneSentMap σ.sentMap now := rfl

theorem pruneSentMap_age (m : List (String × ℚ)) (now : ℚ) :
    ∀ e ∈ pruneSentMap m now, now - e.2 ≤ SENT_TTL_MS := by
  intro e he
  unfold pruneSentMap at he
  have h := (List.mem_filter.1 he).2
  simpa using h

theorem mem_pruneSentMap (m : List (String × ℚ)) (now : ℚ) :
    ∀ e ∈ pruneSentMap m now, e ∈ m := by
  intro e he
  unfold pruneSentMap at he
  exact (List.mem_filter.1 he).1

/-- Looking up `k` in the pruned map right after `aListSet m k v` gives
`v` exactly when `v` is within the TTL. -/
theorem aListFind_prune_set (m : List (String × ℚ)) (k : String) (v now : ℚ) :
    aListFind (pruneSentMap (aListSet m k v) now) k =
      (if now - v ≤ SENT_TTL_MS then some v else none) := by
  unfold pruneSentMap
  rw [aListFind_set_filter]
  by_cases h : now - v ≤ SENT_TTL_MS
  · rw [if_pos (show decide (now - v ≤ SENT_TTL_MS) = true by simpa using h),
      if_pos h]
  · rw [if_neg (show ¬ decide (now - v ≤ SENT_TTL_MS) = true by simpa using h),
      if_neg h]

/-- C6 (counterexample): a sent-map entry inserted by `markSent` at time
`T = 0` (`Date.now()` at the epoch) is still present — and within the
24-hour TTL — at a read one millisecond later, yet `isDuplicate` reports
`false` for it: `Boolean(cleaned[key])` is falsy on the stored timestamp
`0`, so "a read via isDuplicate at any time before T+24h returns true"
fails at `T = 0`. -/
theorem C6_counterexample :
    (1 : ℚ) - 0 ≤ SENT_TTL_MS ∧
    aListFind (isDuplicate "k" (markSent "k" emptyStore 0) 1).2.sentMap "k" =
      some 0 ∧
    (isDuplicate "k" (markSent "k" emptyStore 0) 1).1 = false := by
  refine ⟨by norm_num [SENT_TTL_MS], ?_, ?_⟩
  · rw [isDuplicate_sentMap, markSent_sentMap, aListFind_prune_set,
      if_pos (by norm_num [SENT_TTL_MS])]
  · rw [isDuplicate_fst, markSent_sentMap, aListFind_prune_set,
      if_pos (by norm_num [SENT_TTL_MS])]
    decide

/-- C6 (amended): for an entry inserted by `markSent` at a *nonzero* time
`T`, a read via `isDuplicate` at any `now` with `now - T ≤ 24h` returns
`true`, and a read with `now - T > 24h` returns `false` with the key
absent from the persisted map; moreover every map persisted by
`isDuplicate` holds only former entries within the TTL of the read time,
and every map persisted by `markSent` holds the fresh entry plus former
entries within the TTL — so entries older than 24h are absent from every
persisted map.  (The unamended claim fails only at `T = 0`, where the
stored timestamp is falsy.) -/
theorem C6_sent_map_ttl (key : String) (σ : Store) (T now : ℚ)
    (hT : T ≠ 0) :
    ((now - T ≤ SENT_TTL_MS →
        (isDuplicate key (markSent key σ T) now).1 = true) ∧
      (SENT_TTL_MS < now - T →
        (isDuplicate key (markSent key σ T) now).1 = false ∧
        aListFind (isDuplicate key (markSent key σ T) now).2.sentMap key =
          none)) ∧
    (∀ (k' : String) (σ' : Store) (t' : ℚ),
      ∀ e ∈ (isDuplicate k' σ' t').2.sentMap,
        e ∈ σ'.sentMap ∧ t' - e.2 ≤ SENT_TTL_MS) ∧
    (∀ (k' : String) (σ' : Store) (t' : ℚ),
      ∀ e ∈ (markSent k' σ' t').sentMap,
        e = (k', t') ∨ (e ∈ σ'.sentMap ∧ t' - e.2 ≤ SENT_TTL_MS)) := by
  refine ⟨⟨?_, ?_⟩, ?_, ?_⟩
  · intro hin
    rw [isDuplicate_fst, markSent_sentMap, aListFind_prune_set, if_pos hin]
    simpa using hT
  · intro hout
    have hn : ¬ now - T ≤ SENT_TTL_MS := not_le.2 hout
    constructor
    · rw [isDuplicate_fst, markSent_sentMap, aListFind_prune_set, if_neg hn]
    · rw [isDuplicate_sentMap, markSent_sentMap, aListFind_prune_set, if_neg hn]
  · intro k' σ' t' e he
    rw [isDuplicate_sentMap] at he
    exact ⟨mem_pruneSentMap _ _ e he, pruneSentMap_age _ _ e he⟩
  · intro k' σ' t' e he
    rw [markSent_sentMap] at he
    rcases mem_aListSet _ _ _ e he with h | h
    · exact Or.inl h
    · exact Or.inr ⟨mem_pruneSentMap _ _ e h, pruneSentMap_age _ _ e h⟩

/-- C6 (witness): an entry stamped at `T = 10` reads as a duplicate at
`now = 20` and as a non-duplicate at `now = 86400020 = 10 + 24h + 10`. -/
theorem C6_sent_map_ttl_witness :
    (10 : ℚ) ≠ 0 ∧
    (isDuplicate "k" (markSent "k" emptyStore 10) 20).1 = true ∧
    (isDuplicate "k" (markSent "k" emptyStore 10) 86400020).1 = false := by
  refine ⟨by norm_num, ?_, ?_⟩
  · exact (C6_sent_map_ttl "k" emptyStore 10 20 (by norm_num)).1.1
      (by norm_num [SENT_TTL_MS])
  · exact ((C6_sent_map_ttl "k" emptyStore 10 86400020 (by norm_num)).1.2
      (by norm_num [SENT_TTL_MS])).1

/-! ### C4: the retry/drop policy of the draining loop -/

theorem clampAttempt_nat_succ (n : ℕ) :
    clampAttempt ((n : ℚ) + 1) = (n : ℚ) + 1 := by
  unfold clampAttempt
  rw [if_pos (by positivity)]
  rw [show ((n : ℚ) + 1) = (((n + 1 : ℕ) : ℤ) : ℚ) by push_cast; ring,
    Int.floor_intCast]

/-- Evaluating the retriable-failure store update on a stable id list:
it persists the unpopped queue with the head's counter incremented. -/
theorem resumeRetryStore_eval (target : String) (rest : List String)
    (attempts : List (String × ℚ)) (nr : String) (now : ℚ) (σ : Store)
    (n : ℕ)
    (hstable : normalizeSlipIdList (target :: rest) = target :: rest)
    (ha : aListGetD attempts target = (n : ℚ)) :
    ∃ q : QueuePayload,
      resumeRetryStore (target :: rest)
          (aListSet attempts target (aListGetD attempts target + 1)) nr now σ =
        { σ with pendingCaptureQueue := some q } ∧
      q.slipIds = target :: rest ∧
      q.createdAt = now ∧
      aListFind q.attemptsBySlip target = some ((n : ℚ) + 1) := by
  set A := aListSet attempts target (aListGetD attempts target + 1) with hA
  set payload : QueuePayload :=
    { slipIds := target :: rest, createdAt := now, reason := nr,
      attemptsBySlip := A,
      fingerprint := buildPendingQueueFingerprint (target :: rest) }
    with hpayload
  have hps : payload.slipIds = target :: rest := rfl
  have hne : normalizeSlipIdList payload.slipIds ≠ [] := by
    rw [hps, hstable]
    exact List.cons_ne_nil _ _
  obtain ⟨q, hq⟩ : ∃ q, normalizePendingQueuePayload payload now = some q :=
    ⟨_, (normalize_some_iff payload now _).2 ⟨hne, rfl⟩⟩
  obtain ⟨_, hqeq⟩ := (normalize_some_iff payload now q).1 hq
  have hq_slip : q.slipIds = target :: rest := by
    rw [hqeq]
    show normalizeSlipIdList payload.slipIds = target :: rest
    rw [hps, hstable]
  have hq_created : q.createdAt = now := by
    rw [hqeq]
    show (if 0 < payload.createdAt then payload.createdAt else now) = now
    rw [show payload.createdAt = now from rfl]
    exact ite_self now
  have hq_att : aListFind q.attemptsBySlip target = some ((n : ℚ) + 1) := by
    rw [hqeq]
    show aListFind ((normalizeSlipIdList payload.slipIds).map
      (fun s => (s, clampAttempt (aListGetD payload.attemptsBySlip s))))
      target = some ((n : ℚ) + 1)
    rw [hps, hstable,
      aListFind_map_self _ _ target (by simp),
      show payload.attemptsBySlip = A from rfl, hA,
      aListGetD_set_self, ha, clampAttempt_nat_succ]
  refine ⟨q, ?_, hq_slip, hq_created, hq_att⟩
  have hbody : resumeRetryStore (target :: rest) A nr now σ =
      savePendingCaptureQueue payload σ now := rfl
  rw [hbody]
  unfold savePendingCaptureQueue
  rw [hq]

/-- C4: the retry/drop policy of the head item of the draining loop.  (i)
On a failure whose classified code is retriable, while the stored counter
`n` satisfies `n + 1 < 3`, the queue is persisted without popping with
the head's counter incremented to `n + 1` and the pass suspends (the
`true` flag).  (ii) Otherwise — a non-retriable code, or a retriable one
with the counter exhausted — the head is popped, the baseline cursor is
set to the head id, and draining continues with the next head.  (iii) In
particular a retriable failure of a single-item queue whose counter
already reads `2` (third attempt) drops the item: the queue is cleared,
the baseline updated, and the pass runs to completion. -/
theorem C4_retry_policy :
    (∀ (oracle : ℕ → CaptureOutcome) (reason : String) (now : ℚ) (k : ℕ)
        (target code : String) (rest : List String)
        (attempts : List (String × ℚ)) (qReason : String) (σ : Store)
        (n : ℕ),
      oracle k = CaptureOutcome.thrown code →
      isRetriablePendingQueueCode (getErrorCode code) = true →
      aListGetD attempts target = (n : ℚ) →
      (n : ℚ) + 1 < MAX_PENDING_RETRIES →
      normalizeSlipIdList (target :: rest) = target :: rest →
      ∃ q : QueuePayload,
        resumeLoop oracle reason now k (target :: rest) attempts qReason σ =
          ({ σ with pendingCaptureQueue := some q }, true) ∧
        q.slipIds = target :: rest ∧
        q.createdAt = now ∧
        aListFind q.attemptsBySlip target = some ((n : ℚ) + 1)) ∧
    (∀ (oracle : ℕ → CaptureOutcome) (reason : String) (now : ℚ) (k : ℕ)
        (target code : String) (rest : List String)
        (attempts : List (String × ℚ)) (qReason : String) (σ : Store),
      oracle k = CaptureOutcome.thrown code →
      ¬ (isRetriablePendingQueueCode (getErrorCode code) = true ∧
         aListGetD attempts target + 1 < MAX_PENDING_RETRIES) →
      resumeLoop oracle reason now k (target :: rest) attempts qReason σ =
        resumeLoop oracle reason now (k + 1) rest (aListErase attempts target)
          (resumeReason reason qReason)
          { resumePopStore rest (aListErase attempts target)
              (resumeReason reason qReason) now σ with
            lastSeenHeadSlipId := normalizeText target }) ∧
    (∀ (oracle : ℕ → CaptureOutcome) (reason : String) (now : ℚ) (k : ℕ)
        (target code : String) (attempts : List (String × ℚ))
        (qReason : String) (σ : Store),
      oracle k = CaptureOutcome.thrown code →
      aListGetD attempts target = 2 →
      resumeLoop oracle reason now k [target] attempts qReason σ =
        ({ clearPendingCaptureQueue σ with
            lastSeenHeadSlipId := normalizeText target }, false)) := by
  refine ⟨?_, ?_, ?_⟩
  · intro oracle reason now k target code rest attempts qReason σ n ho hret
      ha hlt hstable
    have h12 := resumeLoop_cons_thrown_retry oracle reason now k target code
      rest attempts qReason σ ho ⟨hret, by rw [ha]; exact hlt⟩
    obtain ⟨q, hsave, hs, hc, hatt⟩ := resumeRetryStore_eval target rest
      attempts (resumeReason reason qReason) now σ n hstable ha
    exact ⟨q, by rw [h12, hsave], hs, hc, hatt⟩
  · intro oracle reason now k target code rest attempts qReason σ ho hc
    exact resumeLoop_cons_thrown_drop oracle reason now k target code rest
      attempts qReason σ ho hc
  · intro oracle reason now k target code attempts qReason σ ho ha
    have hc : ¬ (isRetriablePendingQueueCode (getErrorCode code) = true ∧
        aListGetD attempts target + 1 < MAX_PENDING_RETRIES) := by
      rintro ⟨-, hlt⟩
      rw [ha] at hlt
      revert hlt
      norm_num [MAX_PENDING_RETRIES]
    rw [resumeLoop_cons_thrown_drop oracle reason now k target code []
      attempts qReason σ ho hc]
    rw [show resumePopStore [] (aListErase attempts target)
        (resumeReason reason qReason) now σ = clearPendingCaptureQueue σ from
      by unfold resumePopStore; rw [if_pos rfl]]
    rfl

/-- C4 (witness): a retriable first failure suspends with the counter at
1; a non-retriable failure steps to the drop continuation; a retriable
third failure on a one-item queue clears the queue, sets the baseline
and completes. -/
theorem C4_retry_policy_witness :
    (∃ q : QueuePayload,
      resumeLoop (fun _ => CaptureOutcome.thrown "row_not_found") "r" 1000 0
          ["AAAA-BBBB-CCCC-DDDD"] [] "" emptyStore =
        ({ emptyStore with pendingCaptureQueue := some q }, true) ∧
      q.slipIds = ["AAAA-BBBB-CCCC-DDDD"] ∧
      q.createdAt = 1000 ∧
      aListFind q.attemptsBySlip "AAAA-BBBB-CCCC-DDDD" =
        some (((0 : ℕ) : ℚ) + 1)) ∧
    resumeLoop (fun _ => CaptureOutcome.thrown "boom") "r" 1000 0
        ["AAAA-BBBB-CCCC-DDDD"] [] "" emptyStore =
      resumeLoop (fun _ => CaptureOutcome.thrown "boom") "r" 1000 1 []
        (aListErase [] "AAAA-BBBB-CCCC-DDDD") (resumeReason "r" "")
        { resumePopStore [] (aListErase [] "AAAA-BBBB-CCCC-DDDD")
            (resumeReason "r" "") 1000 emptyStore with
          lastSeenHeadSlipId := normalizeText "AAAA-BBBB-CCCC-DDDD" } ∧
    resumeLoop (fun _ => CaptureOutcome.thrown "row_not_found") "r" 1000 0
        ["AAAA-BBBB-CCCC-DDDD"] [("AAAA-BBBB-CCCC-DDDD", 2)] "" emptyStore =
      ({ clearPendingCaptureQueue emptyStore with
          lastSeenHeadSlipId := normalizeText "AAAA-BBBB-CCCC-DDDD" },
        false) := by
  refine ⟨?_, ?_, ?_⟩
  · exact C4_retry_policy.1 (fun _ => CaptureOutcome.thrown "row_not_found")
      "r" 1000 0 "AAAA-BBBB-CCCC-DDDD" "row_not_found" [] [] "" emptyStore 0
      rfl (by decide) (by simp [aListGetD, aListFind])
      (by norm_num [MAX_PENDING_RETRIES]) (by decide)
  · exact C4_retry_policy.2.1 (fun _ => CaptureOutcome.thrown "boom") "r"
      1000 0 "AAAA-BBBB-CCCC-DDDD" "boom" [] [] "" emptyStore rfl
      (fun h => absurd h.1 (by decide))
  · exact C4_retry_policy.2.2 (fun _ => CaptureOutcome.thrown "row_not_found")
      "r" 1000 0 "AAAA-BBBB-CCCC-DDDD" "row_not_found"
      [("AAAA-BBBB-CCCC-DDDD", 2)] "" emptyStore rfl (by decide)

/-! ### C5: the confirmation-view detection pass -/

/-- `enqueuePendingCaptureQueue` with `reset = true` on a nonempty-after-
normalization list replaces the stored queue wholesale with the
normalized ids. -/
theorem enqueue_reset_normalized (slipIds : List String) (reason : String)
    (σ : Store) (now : ℚ) (hne : normalizeSlipIdList slipIds ≠ [])
    (hnow : 0 < now) :
    ∃ q : QueuePayload,
      enqueuePendingCaptureQueue slipIds reason true σ now =
        (some q, { σ with pendingCaptureQueue := some q }) ∧
      q.slipIds = normalizeSlipIdList slipIds := by
  set F := List.foldl enqueueMergeStep ([], [])
    (normalizeSlipIdList slipIds) with hF
  have hF1 : F.1 = normalizeSlipIdList slipIds := by
    rw [hF, foldl_mergeStep_fresh _ _ (by simp) (normalizeSlipIdList_nodup _)]
    simp
  set payload : QueuePayload :=
    { slipIds := F.1, createdAt := now, reason := normalizeText reason,
      attemptsBySlip := F.2,
      fingerprint := buildPendingQueueFingerprint F.1 } with hpayload
  have hpN : normalizeSlipIdList payload.slipIds ≠ [] := by
    rw [hpayload]
    simp only [hF1]
    rw [normalizeSlipIdList_idem]
    exact hne
  obtain ⟨q, hq⟩ : ∃ q, normalizePendingQueuePayload payload now = some q := by
    unfold normalizePendingQueuePayload
    rw [if_neg hpN]
    exact ⟨_, rfl⟩
  obtain ⟨_, hqeq⟩ := (normalize_some_iff payload now q).1 hq
  have hqslip : q.slipIds = normalizeSlipIdList slipIds := by
    rw [hqeq]
    simp only [hpayload, hF1]
    exact normalizeSlipIdList_idem slipIds
  have hsave : savePendingCaptureQueue q σ now =
      { σ with pendingCaptureQueue := some q } := by
    unfold savePendingCaptureQueue
    rw [normalizePendingQueuePayload_idem payload now q hnow hq now]
  refine ⟨q, ?_, hqslip⟩
  unfold enqueuePendingCaptureQueue
  rw [if_neg hne]
  show (match normalizePendingQueuePayload payload now with
    | none => ((none : Option QueuePayload), σ)
    | some q' => (some q', savePendingCaptureQueue q' σ now)) =
    (some q, { σ with pendingCaptureQueue := some q })
  rw [hq]
  simp [hsave]

/-- C5: on a detection pass whose merged id set is nonempty after
normalization, (i) if the live queue's fingerprint equals the detected
set's fingerprint the pass is a no-op (result `true`, post-load store,
zero navigations); (ii) otherwise — no live queue, or a fingerprint
mismatch — the queue is replaced wholesale by the detected ids and
exactly one forced navigation is issued; (iii) two rows with distinct
nonempty extracted ids yield exactly their two ids in document order. -/
theorem C5_payment_result_pass :
    (∀ (apiBuyList : Option (List BuyItem)) (rows : List ResultRow)
        (reason : String) (σ σ1 : Store) (now : ℚ) (Q : QueuePayload),
      getFreshPendingCaptureQueue σ now = (some Q, σ1) →
      normalizeSlipIdList (mergePaymentResultIds apiBuyList
        (collectPaymentResultSlipIds rows)) ≠ [] →
      Q.fingerprint = buildPendingQueueFingerprint (normalizeSlipIdList
        (mergePaymentResultIds apiBuyList
          (collectPaymentResultSlipIds rows))) →
      handlePaymentResultEntry apiBuyList rows reason σ now =
        (true, σ1, 0)) ∧
    (∀ (apiBuyList : Option (List BuyItem)) (rows : List ResultRow)
        (reason : String) (σ σ1 : Store) (now : ℚ),
      0 < now →
      normalizeSlipIdList (mergePaymentResultIds apiBuyList
        (collectPaymentResultSlipIds rows)) ≠ [] →
      (getFreshPendingCaptureQueue σ now = (none, σ1) ∨
       ∃ Q : QueuePayload,
         getFreshPendingCaptureQueue σ now = (some Q, σ1) ∧
         Q.fingerprint ≠ buildPendingQueueFingerprint (normalizeSlipIdList
           (mergePaymentResultIds apiBuyList
             (collectPaymentResultSlipIds rows)))) →
      ∃ q : QueuePayload,
        handlePaymentResultEntry apiBuyList rows reason σ now =
          (true, { σ1 with pendingCaptureQueue := some q }, 1) ∧
        q.slipIds = normalizeSlipIdList (mergePaymentResultIds apiBuyList
          (collectPaymentResultSlipIds rows))) ∧
    (∀ r1 r2 : ResultRow,
      rowSlipIdOf r1 ≠ "" → rowSlipIdOf r2 ≠ "" →
      rowSlipIdOf r1 ≠ rowSlipIdOf r2 →
      collectPaymentResultSlipIds [r1, r2] =
        [rowSlipIdOf r1, rowSlipIdOf r2]) := by
  refine ⟨?_, ?_, ?_⟩
  · intro apiBuyList rows reason σ σ1 now Q hload hne hfp
    simp only [handlePaymentResultEntry]
    rw [if_neg hne]
    simp only [hload]
    rw [if_pos hfp]
  · intro apiBuyList rows reason σ σ1 now hnow hne hload
    have hne2 : normalizeSlipIdList (normalizeSlipIdList
        (mergePaymentResultIds apiBuyList
          (collectPaymentResultSlipIds rows))) ≠ [] := by
      rw [normalizeSlipIdList_idem]
      exact hne
    obtain ⟨q, henq, hqslip⟩ := enqueue_reset_normalized
      (normalizeSlipIdList (mergePaymentResultIds apiBuyList
        (collectPaymentResultSlipIds rows)))
      (if normalizeText reason = "" then "payment_result_detected"
       else normalizeText reason) σ1 now hne2 hnow
    refine ⟨q, ?_, by rw [hqslip]; exact normalizeSlipIdList_idem _⟩
    rcases hload with hl | ⟨Q, hl, hfpne⟩
    · simp only [handlePaymentResultEntry]
      rw [if_neg hne]
      simp only [hl, henq]
    · simp only [handlePaymentResultEntry]
      rw [if_neg hne]
      simp only [hl]
      rw [if_neg hfpne]
      simp only [henq]
  · intro r1 r2 h1 h2 h12
    simp [collectPaymentResultSlipIds, h1, h2, Ne.symm h12]

/-- A result row whose link invokes `goMyPurWinDetail` with the slip id
as its fourth argument. -/
def c5Row1 : ResultRow :=
  { links := ["goMyPurWinDetail(\x22a\x22,\x22b\x22,\x22c\x22,\x22AAAA-BBBB-CCCC-DDDD\x22)"],
    fallbackText := "" }

/-- A result row with no detail link whose fallback text embeds a second
slip id. -/
def c5Row2 : ResultRow :=
  { links := [], fallbackText := "paid EEEE-FFFF-0000-1111 won" }

/-- C5 (witness): on an empty store, a confirmation view of the two rows
above enqueues exactly their two ids in document order with one forced
navigation. -/
theorem C5_payment_result_pass_witness :
    (0 : ℚ) < 1000 ∧
    collectPaymentResultSlipIds [c5Row1, c5Row2] =
      ["AAAA-BBBB-CCCC-DDDD", "EEEE-FFFF-0000-1111"] ∧
    normalizeSlipIdList (mergePaymentResultIds none
      (collectPaymentResultSlipIds [c5Row1, c5Row2])) =
      ["AAAA-BBBB-CCCC-DDDD", "EEEE-FFFF-0000-1111"] ∧
    (∃ q : QueuePayload,
      handlePaymentResultEntry none [c5Row1, c5Row2] "r" emptyStore 1000 =
        (true, { emptyStore with pendingCaptureQueue := some q }, 1) ∧
      q.slipIds = normalizeSlipIdList (mergePaymentResultIds none
        (collectPaymentResultSlipIds [c5Row1, c5Row2]))) ∧
    collectPaymentResultSlipIds [c5Row1, c5Row2] =
      [rowSlipIdOf c5Row1, rowSlipIdOf c5Row2] := by
  refine ⟨by norm_num, by decide, by decide, ?_, ?_⟩
  · exact C5_payment_result_pass.2.1 none [c5Row1, c5Row2] "r" emptyStore
      emptyStore 1000 (by norm_num) (by decide) (Or.inl rfl)
  · exact C5_payment_result_pass.2.2 c5Row1 c5Row2 (by decide) (by decide)
      (by decide)

end Betman
